import Mathlib

/-!
# go-mail: message serialization, mock sender and SMTP client orchestration

A shallow embedding of the Go package `mail` (files `attach.go`, `message.go`,
`mock.go`, `encryption.go`, `client.go`).

Conventions of the embedding

* A Go `string` is a Lean `String`; the `[]byte` returned by `Message.Bytes` is the
  string holding those bytes (every piece written to the buffer is a Go string or
  base64 text).  Raw attachment content (`[]byte`) is a `List Byte`.
* A Go `error` is its message; a nilable `error` is an `Option Error`; a function
  returning `(value, error)` returns an `Except Error value`.
* Pointers are modelled by value, mutation by explicit state passing.
* A `[]string` is a slice header (`Slice`) into a `Memory` of backing arrays, so that
  `append` writes in place when the capacity allows it.  `Message` is the message with
  its address lists by value (what `Bytes` reads); `MessageStruct` is the Go struct
  with its slice headers, and `MsgState` the struct together with the memory.
* The standard-library collaborators (`strings.Join`, `encoding/base64`,
  `net/textproto`, `mime/multipart`, `bytes.Buffer`) are modelled after their
  documented behaviour; the random multipart boundary and the network are parameters.
-/

namespace GoMail

/-! ## Standard library: errors, bytes, `strings.Join` -/

/-- A Go `error` value, identified with its message. -/
abbrev Error := String

/-- One octet of a Go `[]byte`. -/
abbrev Byte := Fin 256

/-- Go `strings.Join(elems, sep)`. -/
def Join : List String → String → String
  | [], _ => ""
  | e :: rest, sep => rest.foldl (fun acc s => acc ++ sep ++ s) e

/-! ## Standard library: `encoding/base64`, `StdEncoding` -/

/-- The alphabet of `base64.StdEncoding`. -/
def encodeStd : List Char :=
  "ABCDEFGHIJKLMNOPQRSTUVWXYZabcdefghijklmnopqrstuvwxyz0123456789+/".data

/-- The table lookup `enc.encode[i]`. -/
def encodeChar (i : Nat) : Char := encodeStd.getD i 'A'

/-- The padding character of `base64.StdEncoding`. -/
def padChar : Char := '='

/-- Go `(*Encoding).Encode` for `StdEncoding`: three source bytes become four
alphabet characters (`val = b0<<16 | b1<<8 | b2`, sextets `val>>18&63`, `val>>12&63`,
`val>>6&63`, `val&63`); a trailing block of one or two bytes is zero-extended and
padded with `=`. -/
def Encode : List Byte → List Char
  | b0 :: b1 :: b2 :: rest =>
      let val := b0.val * 65536 + b1.val * 256 + b2.val
      encodeChar (val / 262144 % 64) :: encodeChar (val / 4096 % 64) ::
        encodeChar (val / 64 % 64) :: encodeChar (val % 64) :: Encode rest
  | [b0, b1] =>
      let val := b0.val * 65536 + b1.val * 256
      [encodeChar (val / 262144 % 64), encodeChar (val / 4096 % 64),
        encodeChar (val / 64 % 64), padChar]
  | [b0] =>
      let val := b0.val * 65536
      [encodeChar (val / 262144 % 64), encodeChar (val / 4096 % 64), padChar, padChar]
  | [] => []

/-- Go `base64.StdEncoding.EncodeToString`. -/
def EncodeToString (src : List Byte) : String := String.mk (Encode src)

/-- The inverse of the alphabet table: the sextet a character stands for. -/
def decodeChar (c : Char) : Option Nat :=
  let i := encodeStd.indexOf c
  if i < 64 then some i else none

/-- The byte with value `n mod 256`. -/
def byteOf (n : Nat) : Byte := ⟨n % 256, Nat.mod_lt _ (by decide)⟩

/-- The three bytes carried by four sextets. -/
def decodeQuantum (s0 s1 s2 s3 : Nat) : List Byte :=
  [byteOf (s0 * 4 + s1 / 16), byteOf (s1 % 16 * 16 + s2 / 4), byteOf (s2 % 4 * 64 + s3)]

/-- Decoding of the last group of four characters, which may end in `=` (two
bytes) or `==` (one byte). -/
def decodeLast (c0 c1 c2 c3 : Char) : Option (List Byte) :=
  match decodeChar c0, decodeChar c1 with
  | some s0, some s1 =>
      if c2 = padChar ∧ c3 = padChar then some ((decodeQuantum s0 s1 0 0).take 1)
      else
        match decodeChar c2 with
        | none => none
        | some s2 =>
            if c3 = padChar then some ((decodeQuantum s0 s1 s2 0).take 2)
            else
              match decodeChar c3 with
              | none => none
              | some s3 => some (decodeQuantum s0 s1 s2 s3)
  | _, _ => none

/-- Reference decoder for standard padded base64 (RFC 4648, section 4): the text is
read four characters at a time; only the last group may be padded. -/
def stdDecode : List Char → Option (List Byte)
  | [] => some []
  | c0 :: c1 :: c2 :: c3 :: rest =>
      match rest with
      | [] => decodeLast c0 c1 c2 c3
      | _ :: _ =>
          match decodeChar c0, decodeChar c1, decodeChar c2, decodeChar c3, stdDecode rest with
          | some s0, some s1, some s2, some s3, some tail =>
              some (decodeQuantum s0 s1 s2 s3 ++ tail)
          | _, _, _, _, _ => none
  | _ => none

/-- Go `base64.StdEncoding.DecodeString`, on text without line breaks. -/
def DecodeString (s : String) : Option (List Byte) := stdDecode s.data

/-! ## Standard library: `net/textproto.MIMEHeader` and `mime/multipart.Writer` -/

/-- Go `textproto.MIMEHeader` (a `map[string][]string`), kept as an association
list. -/
abbrev MIMEHeader := List (String × List String)

/-- Go `MIMEHeader.Set(key, value)`: the entry of `key` becomes the single value
`value`.  (The keys used by this package are already in canonical MIME form.) -/
def MIMEHeader.Set (h : MIMEHeader) (key value : String) : MIMEHeader :=
  (h.filter (fun kv => kv.1 != key)) ++ [(key, [value])]

/-- Go string comparison `a <= b` (lexicographic on the code units). -/
def stringLE : List Char → List Char → Bool
  | [], _ => true
  | _ :: _, [] => false
  | a :: as, b :: bs => a.toNat < b.toNat || (a.toNat == b.toNat && stringLE as bs)

/-- The header lines `CreatePart` emits: keys in sorted order, one
`key: value CRLF` line per value. -/
def MIMEHeader.lines (h : MIMEHeader) : String :=
  String.join ((h.insertionSort (fun a b => stringLE a.1.data b.1.data = true)).map (fun kv =>
    String.join (kv.2.map (fun v => kv.1 ++ ": " ++ v ++ "\r\n"))))

/-- Go `multipart.part`: the `closed` flag and the sticky write error `we`. -/
structure part where
  closed : Bool
  we : Option Error
deriving DecidableEq, Repr

/-- Go `multipart.Writer` over a `bytes.Buffer`: `w` is the content of the
underlying buffer (the very buffer `Message.Bytes` also writes its headers to),
`boundary` the boundary token and `lastpart` the part most recently created. -/
structure Writer where
  w : String
  boundary : String
  lastpart : Option part
deriving DecidableEq, Repr

/-- Go `multipart.NewWriter(buf)`; the random boundary it draws is the parameter
`boundary`. -/
def NewWriter (buf : String) (boundary : String) : Writer :=
  { w := buf, boundary := boundary, lastpart := none }

/-- Go `writer.Boundary()`. -/
def Writer.Boundary (mw : Writer) : String := mw.boundary

/-- Go `buf.WriteString(s)` on the buffer underlying the writer; a `bytes.Buffer`
write never returns an error. -/
def Writer.WriteString (mw : Writer) (s : String) : Writer :=
  { mw with w := mw.w ++ s }

/-- Go `(*Writer).CreatePart(header)`: the previous part, if any, is closed and its
write error returned; otherwise the delimiter line (preceded by CRLF unless this is
the first part), the header lines and a blank line are written, and the new part
becomes `lastpart`.  The handle returned to the caller is that `lastpart`. -/
def Writer.CreatePart (mw : Writer) (header : MIMEHeader) : Except Error Writer :=
  match mw.lastpart with
  | some p =>
      match p.we with
      | some err => .error err
      | none =>
          .ok { mw with
            w := mw.w ++ ("\r\n--" ++ mw.boundary ++ "\r\n" ++ header.lines ++ "\r\n")
            lastpart := some { closed := false, we := none } }
  | none =>
      .ok { mw with
        w := mw.w ++ ("--" ++ mw.boundary ++ "\r\n" ++ header.lines ++ "\r\n")
        lastpart := some { closed := false, we := none } }

/-- Go `(*part).Write(d)` through the handle of the current `lastpart`: a finished
part refuses the write; otherwise the bytes go to the underlying buffer, whose write
never fails (so `we` stays unset). -/
def Writer.partWrite (mw : Writer) (d : String) : Except Error Writer :=
  match mw.lastpart with
  | none => .error "multipart: can't write to finished part"
  | some p =>
      if p.closed then .error "multipart: can't write to finished part"
      else .ok { mw with w := mw.w ++ d }

/-- Go `(*Writer).Close()`: closes the last part (returning its write error), then
writes the closing delimiter. -/
def Writer.Close (mw : Writer) : Except Error Writer :=
  match mw.lastpart with
  | some p =>
      match p.we with
      | some err => .error err
      | none => .ok { mw with
          w := mw.w ++ ("\r\n--" ++ mw.boundary ++ "--\r\n"), lastpart := none }
  | none => .ok { mw with w := mw.w ++ ("\r\n--" ++ mw.boundary ++ "--\r\n") }

/-- Go `base64.NewEncoder(base64.StdEncoding, part)`: the streaming encoder with its
sticky error and the (at most two) input bytes not yet encoded. -/
structure encoder where
  err : Option Error
  buf : List Byte
deriving DecidableEq, Repr

/-- Go `base64.NewEncoder`. -/
def NewEncoder : encoder := { err := none, buf := [] }

/-- Go `(*encoder).Write(p)`: every complete group of three bytes (buffered bytes
first) is encoded and written to the part; the incomplete tail stays buffered. -/
def encoder.Write (e : encoder) (mw : Writer) (p : List Byte) :
    encoder × Writer × Option Error :=
  match e.err with
  | some err => (e, mw, some err)
  | none =>
      let data := e.buf ++ p
      let n := data.length / 3 * 3
      if n = 0 then ({ e with buf := data }, mw, none)
      else
        match mw.partWrite (String.mk (Encode (data.take n))) with
        | .error err => ({ e with err := some err }, mw, some err)
        | .ok mw1 => ({ e with buf := data.drop n }, mw1, none)

/-- Go `(*encoder).Close()`: flushes the buffered tail, padded, to the part. -/
def encoder.Close (e : encoder) (mw : Writer) : encoder × Writer × Option Error :=
  match e.err with
  | some err => (e, mw, some err)
  | none =>
      if e.buf.length > 0 then
        match mw.partWrite (String.mk (Encode e.buf)) with
        | .error err => ({ e with err := some err, buf := [] }, mw, some err)
        | .ok mw1 => ({ e with buf := [] }, mw1, none)
      else (e, mw, none)

/-! ## Go slices of strings and their backing arrays -/

/-- A Go slice header of a `[]string`: its backing array, the index in that array of
its first element, its length and its capacity. -/
structure Slice where
  arr : Nat
  off : Nat
  len : Nat
  cap : Nat
deriving DecidableEq, Repr

/-- The memory of the backing arrays: `cells a i` is element `i` of array `a`, `next`
is the array the next allocation returns, and `grow oldCap needed` is the capacity
the runtime picks when `append` has to allocate for `needed` elements (the result of
`growslice`; the new array has at least `needed` elements whatever `grow` answers). -/
structure Memory where
  cells : Nat → Nat → String
  next : Nat
  grow : Nat → Nat → Nat

/-- The elements of a slice, `s[0], ..., s[len(s)-1]`. -/
def Memory.read (mem : Memory) (s : Slice) : List String :=
  (List.range s.len).map (fun i => mem.cells s.arr (s.off + i))

/-- Storing the elements `xs` in array `arr` from index `pos` on. -/
def Memory.write (mem : Memory) (arr pos : Nat) (xs : List String) : Memory :=
  { mem with cells := fun a i =>
      if a = arr ∧ pos ≤ i ∧ i < pos + xs.length then xs.getD (i - pos) "" else mem.cells a i }

/-- Go `append(s, xs...)`: when the capacity of `s` suffices the elements are stored
in the backing array of `s` right after its last element and the result shares that
array; otherwise a new array is allocated, the elements of `s` and then `xs` are
stored in it, and the result is a slice of the new array. -/
def Memory.append (mem : Memory) (s : Slice) (xs : List String) : Memory × Slice :=
  if s.len + xs.length ≤ s.cap then
    (mem.write s.arr (s.off + s.len) xs, { s with len := s.len + xs.length })
  else
    ({ mem.write mem.next 0 (mem.read s ++ xs) with next := mem.next + 1 },
      { arr := mem.next, off := 0, len := s.len + xs.length,
        cap := max (s.len + xs.length) (mem.grow s.cap (s.len + xs.length)) })

/-- Go `make([]string, 0)`: an empty slice without capacity. -/
def Slice.empty : Slice := { arr := 0, off := 0, len := 0, cap := 0 }

/-! ## `attach.go` -/

/-- Go `Attachment`. -/
structure Attachment where
  Filename : String
  ContentType : String
  Content : List Byte
  Inline : Bool
deriving DecidableEq, Repr

/-- Go `(*Attachment).Base64`. -/
def Attachment.Base64 (a : Attachment) : String := EncodeToString a.Content

/-- Go `FileOption`, a `func(*Attachment)`: the attachment after the option ran. -/
abbrev FileOption := Attachment → Attachment

/-- Go `WithFileName`. -/
def WithFileName (name : String) : FileOption :=
  fun a => { a with Filename := name }

/-- Go `WithInline`. -/
def WithInline (inline : Bool) : FileOption :=
  fun a => { a with Inline := inline }

/-- The file system as `readFile` sees it: `os.Open(path)` fails with an error, or
the file opens and `io.ReadAll` returns the bytes it read and its error, if any. -/
abbrev FileSystem := String → Except Error (List Byte × Option Error)

/-- Go `readFile`: the pair `([]byte, error)` it returns. -/
def readFile (fs : FileSystem) (path : String) : List Byte × Option Error :=
  match fs path with
  | .error err => ([], some err)
  | .ok r => r

/-- Go `filepath.Base` with the separator `/`: the last element of the path after
the trailing separators are removed; `.` for the empty path and `/` for a path made
of separators only. -/
def Base (path : String) : String :=
  if path = "" then "."
  else
    let stripped := path.data.reverse.dropWhile (fun c => c == '/')
    let last := (stripped.takeWhile (fun c => c != '/')).reverse
    if last = [] then "/" else String.mk last

/-- Go `CreateAttachmentFromFile`. -/
def CreateAttachmentFromFile (fs : FileSystem) (path : String) (opts : List FileOption) :
    Except Error Attachment :=
  match readFile fs path with
  | (_, some err) => .error err
  | (content, none) =>
      let filename := Base path
      let a : Attachment :=
        { Filename := filename, Content := content, ContentType := "application/octet-stream",
          Inline := false }
      .ok (opts.foldl (fun a opt => opt a) a)

/-! ## `message.go` -/

/-- Go `Message`, with its address lists by value: what `Bytes` reads of a message
(see `MessageStruct` for the struct with its slice headers). -/
structure Message where
  From : String
  To : List String
  Cc : List String
  Bcc : List String
  Subject : String
  Body : String
  ContentType : String
  Attachments : List Attachment
deriving DecidableEq, Repr

/-- The Go struct `Message` as it lies in memory: `To`, `Cc` and `Bcc` are slice
headers. -/
structure MessageStruct where
  From : String
  To : Slice
  Cc : Slice
  Bcc : Slice
  Subject : String
  Body : String
  ContentType : String
  Attachments : List Attachment
deriving DecidableEq, Repr

/-- What a `*Message` gives access to: the struct and the memory its slices point
into. -/
structure MsgState where
  mem : Memory
  msg : MessageStruct

/-- The message a `*Message` stands for: the struct with its address lists read
from memory. -/
def MsgState.contents (st : MsgState) : Message :=
  { From := st.msg.From, To := st.mem.read st.msg.To, Cc := st.mem.read st.msg.Cc,
    Bcc := st.mem.read st.msg.Bcc, Subject := st.msg.Subject, Body := st.msg.Body,
    ContentType := st.msg.ContentType, Attachments := st.msg.Attachments }

/-- Go `NewMessage`: the struct it returns a pointer to. -/
def NewMessage : MessageStruct :=
  { From := "", To := Slice.empty, Cc := Slice.empty, Bcc := Slice.empty, Subject := "",
    Body := "", ContentType := "text/plain", Attachments := [] }

/-- Go `(*Message).SetFrom`; the pointer returned is the receiver. -/
def MsgState.SetFrom (st : MsgState) (sender : String) : MsgState :=
  { st with msg := { st.msg with From := sender } }

/-- Go `(*Message).AddTo`: `m.To = append(m.To, emails...)`. -/
def MsgState.AddTo (st : MsgState) (emails : List String) : MsgState :=
  let r := st.mem.append st.msg.To emails
  { mem := r.1, msg := { st.msg with To := r.2 } }

/-- Go `(*Message).AddCc`: `m.Cc = append(m.Cc, emails...)`. -/
def MsgState.AddCc (st : MsgState) (emails : List String) : MsgState :=
  let r := st.mem.append st.msg.Cc emails
  { mem := r.1, msg := { st.msg with Cc := r.2 } }

/-- Go `(*Message).AddBcc`: `m.Bcc = append(m.Bcc, emails...)`. -/
def MsgState.AddBcc (st : MsgState) (emails : List String) : MsgState :=
  let r := st.mem.append st.msg.Bcc emails
  { mem := r.1, msg := { st.msg with Bcc := r.2 } }

/-- Go `(*Message).SetSubject`. -/
def MsgState.SetSubject (st : MsgState) (subject : String) : MsgState :=
  { st with msg := { st.msg with Subject := subject } }

/-- Go `(*Message).SetBody`. -/
def MsgState.SetBody (st : MsgState) (contentType body : String) : MsgState :=
  { st with msg := { st.msg with ContentType := contentType, Body := body } }

/-- Go `(*Message).AddAttachment`: the message after the call and the returned
error. -/
def Message.AddAttachment (m : Message) (fs : FileSystem) (path : String)
    (opts : List FileOption) : Message × Option Error :=
  match CreateAttachmentFromFile fs path opts with
  | .error err => (m, some err)
  | .ok a => ({ m with Attachments := m.Attachments ++ [a] }, none)

/-- Go `(*Message).AddAttachmentData`. -/
def Message.AddAttachmentData (m : Message) (filename : String) (content : List Byte)
    (contentType : String) : Message :=
  let contentType := if contentType = "" then "application/octet-stream" else contentType
  { m with Attachments := m.Attachments ++
      [{ Filename := filename, Content := content, ContentType := contentType,
         Inline := false }] }

/-- Go `(*Message).Validate`. -/
def Message.Validate (m : Message) : Option Error :=
  if m.From = "" then some "from address is required"
  else if m.To.length = 0 then some "at least one recipient (To) is required"
  else none

/-- The part header built for one attachment in `Message.Bytes`. -/
def attHeader (att : Attachment) : MIMEHeader :=
  let h : MIMEHeader := []
  let h :=
    if att.Inline then h.Set "Content-Disposition" ("inline; filename=\"" ++ att.Filename ++ "\"")
    else h.Set "Content-Disposition" ("attachment; filename=\"" ++ att.Filename ++ "\"")
  let h := h.Set "Content-Type" att.ContentType
  h.Set "Content-Transfer-Encoding" "base64"

/-- The attachment loop of `Message.Bytes`: for each attachment a part is created
and its content streamed through a fresh base64 encoder; an error of `CreatePart`
or of the encoder write ends `Bytes` with that error (the source's
`_, err := encoder.Write(att.Content)` is read as the assignment to `err`), the
result of `encoder.Close()` is dropped. -/
def writeAttachments (mw : Writer) : List Attachment → Except Error Writer
  | [] => .ok mw
  | att :: rest =>
      match mw.CreatePart (attHeader att) with
      | .error err => .error err
      | .ok mw1 =>
          match NewEncoder.Write mw1 att.Content with
          | (_, _, some err) => .error err
          | (enc, mw2, none) =>
              let (_, mw3, _) := enc.Close mw2
              writeAttachments mw3 rest

/-- Go `(*Message).Bytes`; `boundary` is the token drawn by `multipart.NewWriter`. -/
def Message.Bytes (m : Message) (boundary : String) : Except Error String :=
  match m.Validate with
  | some err => .error err
  | none =>
      let buf := ""
      let buf := buf ++ ("From: " ++ m.From ++ "\r\n")
      let buf := if m.To.length > 0 then buf ++ ("To: " ++ Join m.To ", " ++ "\r\n") else buf
      let buf := if m.Cc.length > 0 then buf ++ ("Cc: " ++ Join m.Cc ", " ++ "\r\n") else buf
      let buf := buf ++ ("Subject: " ++ m.Subject ++ "\r\n")
      let buf := buf ++ "MIME-Version: 1.0\r\n"
      let writer := NewWriter buf boundary
      let boundary := writer.Boundary
      if m.Attachments.length > 0 then
        let writer := writer.WriteString
          ("Content-Type: multipart/mixed; boundary=" ++ boundary ++ "\r\n")
        let writer := writer.WriteString "\r\n"
        let bodyPartHeader : MIMEHeader := []
        let bodyPartHeader := bodyPartHeader.Set "Content-Type" m.ContentType
        match writer.CreatePart bodyPartHeader with
        | .error err => .error err
        | .ok writer =>
            let writer :=
              match writer.partWrite m.Body with
              | .ok writer1 => writer1
              | .error _ => writer
            match writeAttachments writer m.Attachments with
            | .error err => .error err
            | .ok writer =>
                let writer :=
                  match writer.Close with
                  | .ok writer1 => writer1
                  | .error _ => writer
                .ok writer.w
      else
        let writer := writer.WriteString ("Content-Type: " ++ m.ContentType ++ "\r\n")
        let writer := writer.WriteString "\r\n"
        let writer := writer.WriteString m.Body
        .ok writer.w

/-- Go `(*Message).Validate` on the message in memory: the state after the call and
the returned error. -/
def MsgState.Validate (st : MsgState) : MsgState × Option Error :=
  if st.msg.From = "" then (st, some "from address is required")
  else if st.msg.To.len = 0 then (st, some "at least one recipient (To) is required")
  else (st, none)

/-- Go `(*Message).Bytes` on the message in memory: the state after the call and the
returned value.  The addresses are read from the backing arrays of `m.To` and `m.Cc`
where `strings.Join` is called. -/
def MsgState.Bytes (st : MsgState) (boundary : String) : MsgState × Except Error String :=
  match st.Validate with
  | (st, some err) => (st, .error err)
  | (st, none) =>
      let buf := ""
      let buf := buf ++ ("From: " ++ st.msg.From ++ "\r\n")
      let buf :=
        if st.msg.To.len > 0 then buf ++ ("To: " ++ Join (st.mem.read st.msg.To) ", " ++ "\r\n")
        else buf
      let buf :=
        if st.msg.Cc.len > 0 then buf ++ ("Cc: " ++ Join (st.mem.read st.msg.Cc) ", " ++ "\r\n")
        else buf
      let buf := buf ++ ("Subject: " ++ st.msg.Subject ++ "\r\n")
      let buf := buf ++ "MIME-Version: 1.0\r\n"
      let writer := NewWriter buf boundary
      let boundary := writer.Boundary
      if st.msg.Attachments.length > 0 then
        let writer := writer.WriteString
          ("Content-Type: multipart/mixed; boundary=" ++ boundary ++ "\r\n")
        let writer := writer.WriteString "\r\n"
        let bodyPartHeader : MIMEHeader := []
        let bodyPartHeader := bodyPartHeader.Set "Content-Type" st.msg.ContentType
        match writer.CreatePart bodyPartHeader with
        | .error err => (st, .error err)
        | .ok writer =>
            let writer :=
              match writer.partWrite st.msg.Body with
              | .ok writer1 => writer1
              | .error _ => writer
            match writeAttachments writer st.msg.Attachments with
            | .error err => (st, .error err)
            | .ok writer =>
                let writer :=
                  match writer.Close with
                  | .ok writer1 => writer1
                  | .error _ => writer
                (st, .ok writer.w)
      else
        let writer := writer.WriteString ("Content-Type: " ++ st.msg.ContentType ++ "\r\n")
        let writer := writer.WriteString "\r\n"
        let writer := writer.WriteString st.msg.Body
        (st, .ok writer.w)

/-! ## `mock.go` -/

/-- Go `MockClient`. -/
structure MockClient where
  SentMessages : List Message
  Err : Option Error
deriving DecidableEq, Repr

/-- Go `NewMockClient`. -/
def NewMockClient : MockClient := { SentMessages := [], Err := none }

/-- Go `(*MockClient).Send`: the mock after the call and the returned error. -/
def MockClient.Send (m : MockClient) (messages : List Message) : MockClient × Option Error :=
  match m.Err with
  | some err => (m, some err)
  | none => ({ m with SentMessages := m.SentMessages ++ messages }, none)

/-- A sequence of `Send` calls on one mock, one call per message list: the mock
after the last call and the value each call returned. -/
def MockClient.SendAll (m : MockClient) : List (List Message) → MockClient × List (Option Error)
  | [] => (m, [])
  | messages :: calls =>
      let (m1, err) := m.Send messages
      let (m2, errs) := m1.SendAll calls
      (m2, err :: errs)

/-! ## `encryption.go` and `client.go` -/

/-- Go `EncryptionType` (a string type). -/
abbrev EncryptionType := String

/-- Go `EncryptionNone`. -/
def EncryptionNone : EncryptionType := "NONE"

/-- Go `EncryptionSSL`. -/
def EncryptionSSL : EncryptionType := "SSL"

/-- Go `EncryptionTLS`. -/
def EncryptionTLS : EncryptionType := "TLS"

/-- Go `Client`. -/
structure Client where
  host : String
  port : Int
  username : String
  password : String
  encryption : EncryptionType
deriving DecidableEq, Repr

/-- Go `NewClient`. -/
def NewClient (host : String) (port : Int) (username password : String)
    (encryption : EncryptionType) : Client :=
  { host := host, port := port, username := username, password := password,
    encryption := encryption }

/-- The value of `smtp.PlainAuth(identity, username, password, host)`. -/
structure Auth where
  identity : String
  username : String
  password : String
  host : String
deriving DecidableEq, Repr

/-- Go `smtp.PlainAuth`. -/
def PlainAuth (identity username password host : String) : Auth :=
  { identity := identity, username := username, password := password, host := host }

/-- The operations the client asks of the transport collaborators (`net/smtp`,
`crypto/tls`): the one-shot `smtp.SendMail(addr, auth, from, to, msg)`, and for the
implicit-TLS path `tls.Dial` (with the `ServerName` and `InsecureSkipVerify` of its
configuration), `smtp.NewClient`, `Auth`, `Mail`, `Rcpt`, `Data`, the `Write` and
`Close` of the data writer, `Quit` and the `Close` of the connection. -/
inductive Op where
  | SendMail (addr : String) (a : Auth) (sender : String) (toAddrs : List String) (msg : String)
  | Dial (addr : String) (serverName : String) (insecureSkipVerify : Bool)
  | NewClient (host : String)
  | Auth (a : Auth)
  | Mail (sender : String)
  | Rcpt (addr : String)
  | Data
  | Write (msg : String)
  | CloseData
  | Quit
  | ConnClose
deriving DecidableEq, Repr

/-- The network and the server: the error (or `none`) with which an operation
answers, given the operations performed before it. -/
abbrev Net := List Op → Op → Option Error

/-- Performing one operation: it is appended to the log and the transport answers. -/
def issue (net : Net) (log : List Op) (op : Op) : List Op × Option Error :=
  (log ++ [op], net log op)

/-- The loop of `sendStandard`; message number `i` of the batch draws the boundary
`bnd i`, and `toAddrs` is the source's local `to`.  The messages are pointers to
structs no statement of the loop assigns to; the two `append` calls write to the
memory of the backing arrays, which is threaded through the loop. -/
def sendStandardLoop (net : Net) (bnd : Nat → String) (addr : String) (auth : Auth) :
    Nat → List MessageStruct → Memory → List Op → Memory × List Op × Option Error
  | _, [], mem, log => (mem, log, none)
  | i, msg :: rest, mem, log =>
      let r := mem.append msg.To (mem.read msg.Cc)
      let r := r.1.append r.2 (r.1.read msg.Bcc)
      let toAddrs := r.2
      match MsgState.Bytes { mem := r.1, msg := msg } (bnd i) with
      | (st, .error err) => (st.mem, log, some err)
      | (st, .ok msgBytes) =>
          match issue net log
            (.SendMail addr auth st.msg.From (st.mem.read toAddrs) msgBytes) with
          | (log1, some err) => (st.mem, log1, some err)
          | (log1, none) => sendStandardLoop net bnd addr auth (i + 1) rest st.mem log1

/-- Go `(*Client).sendStandard`: the memory after the call, the operations performed
and the returned error. -/
def Client.sendStandard (_c : Client) (net : Net) (bnd : Nat → String) (addr : String)
    (auth : Auth) (mem : Memory) (messages : List MessageStruct) :
    Memory × List Op × Option Error :=
  sendStandardLoop net bnd addr auth 0 messages mem []

/-- The recipient loop of `sendSSL`. -/
def rcptLoop (net : Net) : List String → List Op → List Op × Option Error
  | [], log => (log, none)
  | addr :: rest, log =>
      match issue net log (.Rcpt addr) with
      | (log1, some err) => (log1, some err)
      | (log1, none) => rcptLoop net rest log1

/-- The message loop of `sendSSL`. -/
def sendSSLLoop (net : Net) (bnd : Nat → String) :
    Nat → List MessageStruct → Memory → List Op → Memory × List Op × Option Error
  | _, [], mem, log => (mem, log, none)
  | i, msg :: rest, mem, log =>
      let r := mem.append msg.To (mem.read msg.Cc)
      let r := r.1.append r.2 (r.1.read msg.Bcc)
      let mem := r.1
      let toAddrs := r.2
      match issue net log (.Mail msg.From) with
      | (log1, some err) => (mem, log1, some err)
      | (log1, none) =>
          match rcptLoop net (mem.read toAddrs) log1 with
          | (log2, some err) => (mem, log2, some err)
          | (log2, none) =>
              match issue net log2 .Data with
              | (log3, some err) => (mem, log3, some err)
              | (log3, none) =>
                  match MsgState.Bytes { mem := mem, msg := msg } (bnd i) with
                  | (st, .error err) => (st.mem, (issue net log3 .CloseData).1, some err)
                  | (st, .ok msgBytes) =>
                      match issue net log3 (.Write msgBytes) with
                      | (log4, some err) => (st.mem, (issue net log4 .CloseData).1, some err)
                      | (log4, none) =>
                          match issue net log4 .CloseData with
                          | (log5, some err) => (st.mem, log5, some err)
                          | (log5, none) => sendSSLLoop net bnd (i + 1) rest st.mem log5

/-- Go `(*Client).sendSSL`; the deferred `client.Quit()` and `conn.Close()` run, in
that order, on every return after their `defer` statement. -/
def Client.sendSSL (c : Client) (net : Net) (bnd : Nat → String) (addr : String)
    (auth : Auth) (mem : Memory) (messages : List MessageStruct) :
    Memory × List Op × Option Error :=
  match issue net [] (.Dial addr c.host false) with
  | (log1, some err) => (mem, log1, some err)
  | (log1, none) =>
      let (mem4, log4, err) :=
        match issue net log1 (.NewClient c.host) with
        | (log2, some err) => (mem, log2, some err)
        | (log2, none) =>
            let (mem3, log3, err) :=
              match issue net log2 (.Auth auth) with
              | (log3, some err) => (mem, log3, some err)
              | (log3, none) => sendSSLLoop net bnd 0 messages mem log3
            (mem3, (issue net log3 .Quit).1, err)
      (mem4, (issue net log4 .ConnClose).1, err)

/-- Go `(*Client).Send`: the memory after the call, the operations performed on the
transport and the returned error. -/
def Client.Send (c : Client) (net : Net) (bnd : Nat → String) (mem : Memory)
    (messages : List MessageStruct) : Memory × List Op × Option Error :=
  let addr := c.host ++ ":" ++ toString c.port
  let auth := PlainAuth "" c.username c.password c.host
  if c.encryption = EncryptionSSL then c.sendSSL net bnd addr auth mem messages
  else c.sendStandard net bnd addr auth mem messages

/-! ## Vocabulary of the specification -/

/-- The value of the `Content-Disposition` header of an attachment part. -/
def disposition (att : Attachment) : String :=
  if att.Inline then "inline; filename=\"" ++ att.Filename ++ "\""
  else "attachment; filename=\"" ++ att.Filename ++ "\""

/-- The text of a MIME part: its header lines, a blank line, its content. -/
def partText (headers : List (String × String)) (content : String) : String :=
  String.join (headers.map (fun kv => kv.1 ++ ": " ++ kv.2 ++ "\r\n")) ++ "\r\n" ++ content

/-- The parts after the first and the end of a multipart body: each part is
introduced by CRLF and the delimiter line `--boundary`, and the closing delimiter
`--boundary--` follows the last part. -/
def multipartRest (boundary : String) : List String → String
  | [] => "\r\n--" ++ boundary ++ "--\r\n"
  | p :: ps => "\r\n--" ++ boundary ++ "\r\n" ++ p ++ multipartRest boundary ps

/-- What the attachment loop of `Message.Bytes` appends to the buffer. -/
def attachmentsText (boundary : String) : List Attachment → String
  | [] => ""
  | att :: rest =>
      "\r\n--" ++ boundary ++ "\r\n" ++ (attHeader att).lines ++ "\r\n" ++ att.Base64 ++
        attachmentsText boundary rest

/-- A multipart body with the given parts. -/
def multipartBody (boundary : String) : List String → String
  | [] => "\r\n--" ++ boundary ++ "--\r\n"
  | p :: ps => "--" ++ boundary ++ "\r\n" ++ p ++ multipartRest boundary ps

/-- The header block of the specification: `From`, `To`, `Cc` (only when there is a
Cc address), `Subject` and `MIME-Version`, each line ended by CRLF. -/
def headerBlock (m : Message) : String :=
  "From: " ++ m.From ++ "\r\n" ++ ("To: " ++ Join m.To ", " ++ "\r\n") ++
    (if m.Cc = [] then "" else "Cc: " ++ Join m.Cc ", " ++ "\r\n") ++
    ("Subject: " ++ m.Subject ++ "\r\n") ++ "MIME-Version: 1.0\r\n"

/-- The transport that accepts every operation. -/
def acceptAll : Net := fun _ _ => none

/-- The recipients `Send` computes for a message it processes in the memory `mem`
(the elements of the local `to` after its two `append` calls), with the memory after
these calls. -/
def envelopeRecipients (mem : Memory) (msg : MessageStruct) : Memory × List String :=
  let r := mem.append msg.To (mem.read msg.Cc)
  let r := r.1.append r.2 (r.1.read msg.Bcc)
  (r.1, r.1.read r.2)

/-- The processing of one message on the `sendStandard` path: the body of its loop,
for message number `i`, from the memory `mem` and the log `log`. -/
def standardStep (net : Net) (bnd : Nat → String) (addr : String) (auth : Auth)
    (i : Nat) (msg : MessageStruct) (mem : Memory) (log : List Op) :
    Memory × List Op × Option Error :=
  let r := mem.append msg.To (mem.read msg.Cc)
  let r := r.1.append r.2 (r.1.read msg.Bcc)
  let toAddrs := r.2
  match MsgState.Bytes { mem := r.1, msg := msg } (bnd i) with
  | (st, .error err) => (st.mem, log, some err)
  | (st, .ok msgBytes) =>
      match issue net log (.SendMail addr auth st.msg.From (st.mem.read toAddrs) msgBytes) with
      | (log1, err) => (st.mem, log1, err)

/-- The processing of one message on the `sendSSL` path: the body of its loop. -/
def sslStep (net : Net) (bnd : Nat → String) (i : Nat) (msg : MessageStruct) (mem : Memory)
    (log : List Op) : Memory × List Op × Option Error :=
  let r := mem.append msg.To (mem.read msg.Cc)
  let r := r.1.append r.2 (r.1.read msg.Bcc)
  let mem := r.1
  let toAddrs := r.2
  match issue net log (.Mail msg.From) with
  | (log1, some err) => (mem, log1, some err)
  | (log1, none) =>
      match rcptLoop net (mem.read toAddrs) log1 with
      | (log2, some err) => (mem, log2, some err)
      | (log2, none) =>
          match issue net log2 .Data with
          | (log3, some err) => (mem, log3, some err)
          | (log3, none) =>
              match MsgState.Bytes { mem := mem, msg := msg } (bnd i) with
              | (st, .error err) => (st.mem, (issue net log3 .CloseData).1, some err)
              | (st, .ok msgBytes) =>
                  match issue net log3 (.Write msgBytes) with
                  | (log4, some err) => (st.mem, (issue net log4 .CloseData).1, some err)
                  | (log4, none) =>
                      match issue net log4 .CloseData with
                      | (log5, err) => (st.mem, log5, err)

/-- The batch rule of the specification: the messages are processed in order, one
after the other, and the first error ends the batch and is the result. -/
def runBatch (step : Nat → MessageStruct → Memory → List Op → Memory × List Op × Option Error) :
    Nat → List MessageStruct → Memory → List Op → Memory × List Op × Option Error
  | _, [], mem, log => (mem, log, none)
  | i, msg :: rest, mem, log =>
      match step i msg mem log with
      | (mem1, log1, some err) => (mem1, log1, some err)
      | (mem1, log1, none) => runBatch step (i + 1) rest mem1 log1

/-- The processing of one message by the client, on the path its mode selects. -/
def Client.step (c : Client) (net : Net) (bnd : Nat → String) (i : Nat) (msg : MessageStruct)
    (mem : Memory) (log : List Op) : Memory × List Op × Option Error :=
  if c.encryption = EncryptionSSL then sslStep net bnd i msg mem log
  else standardStep net bnd (c.host ++ ":" ++ toString c.port)
    (PlainAuth "" c.username c.password c.host) i msg mem log

/-- The operations of the complete transmission of one message with the sender
`sender`, the recipients `rcpts` and the serialized bytes `out`: on the SSL path
sender, recipients, data block; else one `SendMail`. -/
def Client.transmissionOps (c : Client) (sender : String) (rcpts : List String)
    (out : String) : List Op :=
  if c.encryption = EncryptionSSL then
    Op.Mail sender :: (rcpts.map Op.Rcpt ++ [Op.Data, Op.Write out, Op.CloseData])
  else
    [Op.SendMail (c.host ++ ":" ++ toString c.port) (PlainAuth "" c.username c.password c.host)
      sender rcpts out]

/-- The operations of the complete transmission of a list of messages, in order,
from the memory `mem`, the first of them being message number `i` of the batch; each
message is transmitted to the recipients computed for it when its turn comes. -/
def Client.batchOps (c : Client) (bnd : Nat → String) :
    Nat → List MessageStruct → Memory → List Op
  | _, [], _ => []
  | i, msg :: rest, mem =>
      (match (MsgState.contents { mem := (envelopeRecipients mem msg).1, msg := msg }).Bytes
          (bnd i) with
        | .ok out => c.transmissionOps msg.From (envelopeRecipients mem msg).2 out
        | .error _ => []) ++ c.batchOps bnd (i + 1) rest (envelopeRecipients mem msg).1

/-- The memory after the processing of a list of messages. -/
def batchMemory : List MessageStruct → Memory → Memory
  | [], mem => mem
  | msg :: rest, mem => batchMemory rest (envelopeRecipients mem msg).1

/-- The operations that open the session before the first message (SSL path). -/
def Client.connectOps (c : Client) : List Op :=
  if c.encryption = EncryptionSSL then
    [Op.Dial (c.host ++ ":" ++ toString c.port) c.host false, Op.NewClient c.host,
      Op.Auth (PlainAuth "" c.username c.password c.host)]
  else []

/-- The deferred operations that end the session (SSL path). -/
def Client.closeOps (c : Client) : List Op :=
  if c.encryption = EncryptionSSL then [Op.Quit, Op.ConnClose] else []

/-- A slice that respects the invariant of the runtime: its length is at most its
capacity, and when it has capacity its backing array was allocated. -/
def Memory.allocated (mem : Memory) (s : Slice) : Prop :=
  s.len ≤ s.cap ∧ (s.cap = 0 ∨ s.arr < mem.next)

/-- Two slices that share no element of a backing array, up to their capacities. -/
def Slice.disjoint (s t : Slice) : Prop :=
  s.cap = 0 ∨ t.cap = 0 ∨ s.arr ≠ t.arr ∨ s.off + s.cap ≤ t.off ∨ t.off + t.cap ≤ s.off

/-- A message whose three address slices respect the invariant of the runtime and
share no element of a backing array, up to their capacities. -/
def MsgState.Separated (st : MsgState) : Prop :=
  st.mem.allocated st.msg.To ∧ st.mem.allocated st.msg.Cc ∧ st.mem.allocated st.msg.Bcc ∧
  st.msg.To.disjoint st.msg.Cc ∧ st.msg.To.disjoint st.msg.Bcc ∧
  st.msg.Cc.disjoint st.msg.Bcc

/-- Splitting a text at its first blank line, the first occurrence of CRLF CRLF: the
text before it and the text after it (`none` when there is no blank line). -/
def splitAtBlank : List Char → Option (List Char × List Char)
  | [] => none
  | c :: rest =>
      if c = '\r' ∧ rest.take 3 = ['\n', '\r', '\n'] then some ([], rest.drop 3)
      else
        match splitAtBlank rest with
        | some (header, body) => some (c :: header, body)
        | none => none

/-- The number of occurrences of CRLF in a text. -/
def countCRLF : List Char → Nat
  | [] => 0
  | c :: rest => (if c = '\r' ∧ rest.head? = some '\n' then 1 else 0) + countCRLF rest

/-- The number of lines of a text whose lines are separated by CRLF. -/
def lineCount (text : List Char) : Nat := countCRLF text + 1

/-- Lines joined by CRLF. -/
def joinCRLF : List (List Char) → List Char
  | [] => []
  | [line] => line
  | line :: lines => line ++ '\r' :: '\n' :: joinCRLF lines

/-- A text without carriage return and without line feed. -/
def noCRLF (text : List Char) : Prop := ∀ c ∈ text, c ≠ '\r' ∧ c ≠ '\n'

/-- The header lines of a message without attachments, as the specification lists
them: `From`, `To`, `Cc` when there is a Cc address, `Subject`, `MIME-Version`,
`Content-Type`. -/
def headerLines (m : Message) : List String :=
  ["From: " ++ m.From, "To: " ++ Join m.To ", "] ++
    (if m.Cc = [] then [] else ["Cc: " ++ Join m.Cc ", "]) ++
    ["Subject: " ++ m.Subject, "MIME-Version: 1.0", "Content-Type: " ++ m.ContentType]

/-- The lines of a text, split at every CRLF (Go `strings.Split(text, "\r\n")`); a
carriage return ends a line exactly when a line feed follows it, which shows in the
lines of the rest as a first line that starts with the line feed. -/
def splitLines : List Char → List (List Char)
  | [] => [[]]
  | c :: rest =>
      match splitLines rest with
      | [] => [[c]]
      | l :: ls =>
          if c = '\r' ∧ l.head? = some '\n' then [] :: l.tail :: ls else (c :: l) :: ls

/-- Whether the text `l` starts with the text `p`. -/
def startsWith : List Char → List Char → Bool
  | [], _ => true
  | _ :: _, [] => false
  | p :: ps, c :: cs => p == c && startsWith ps cs

/-- Whether a header line is a `Content-Type` header. -/
def isContentTypeHeader (line : List Char) : Bool := startsWith "Content-Type:".data line

/-- The MIME parts the specification lists for a message with attachments: the body
part, then one part per attachment in the order of the attachment list. -/
def mimeParts (m : Message) : List String :=
  partText [("Content-Type", m.ContentType)] m.Body ::
    m.Attachments.map (fun att =>
      partText
        [("Content-Disposition", disposition att),
          ("Content-Transfer-Encoding", "base64"),
          ("Content-Type", att.ContentType)]
        att.Base64)

/-- The delimiter line `--boundary` of a multipart body. -/
def delimiterLine (boundary : String) : List Char := ("--" ++ boundary).data

/-- The closing delimiter line `--boundary--` of a multipart body. -/
def closingLine (boundary : String) : List Char := ("--" ++ boundary ++ "--").data

/-- Reading the lines of a multipart body as a MIME reader does: the number of
delimiter lines met before the first closing delimiter line, each of which starts a
part; `none` when no closing delimiter line is met. -/
def countParts (delim close : List Char) : List (List Char) → Option Nat
  | [] => none
  | l :: ls =>
      if l = close then some 0
      else
        match countParts delim close ls with
        | some k => some (if l = delim then k + 1 else k)
        | none => none

/-- The number of MIME parts a reader finds in a multipart body delimited by
`boundary`. -/
def mimePartCount (boundary : String) (body : String) : Option Nat :=
  countParts (delimiterLine boundary) (closingLine boundary) (splitLines body.data)

/-- The lines of a multipart body from the end of one part on: for each further part
its delimiter line and its lines, then the closing delimiter line and the empty line
after its CRLF. -/
def restLines (boundary : String) : List String → List (List Char)
  | [] => [closingLine boundary, []]
  | p :: ps => delimiterLine boundary :: (splitLines p.data ++ restLines boundary ps)

/-- The two kinds of option the package provides, by name and argument. -/
inductive ProvidedOption where
  | fileName (name : String)
  | inline (flag : Bool)
deriving DecidableEq, Repr

/-- The `FileOption` a provided option stands for. -/
def ProvidedOption.toFileOption : ProvidedOption → FileOption
  | .fileName name => WithFileName name
  | .inline flag => WithInline flag

/-- The name given by the last `WithFileName` of an option list, if there is one. -/
def lastFileName : List ProvidedOption → Option String
  | [] => none
  | .fileName name :: rest =>
      match lastFileName rest with
      | some later => some later
      | none => some name
  | .inline _ :: rest => lastFileName rest

/-- The value given by the last `WithInline` of an option list, if there is one. -/
def lastInline : List ProvidedOption → Option Bool
  | [] => none
  | .inline flag :: rest =>
      match lastInline rest with
      | some later => some later
      | none => some flag
  | .fileName _ :: rest => lastInline rest

/-- A call `a.Base64()` seen from the caller that holds the attachment: the
attachment after the call and the value returned. -/
def Attachment.callBase64 (a : Attachment) : Attachment × String :=
  (a, a.Base64)

/-! ## Example inputs -/

/-- The bytes of an ASCII string. -/
def asciiBytes (s : String) : List Byte := s.data.map (fun c => byteOf c.toNat)

/-- The message of `TestMessage_Bytes`. -/
def testMessage : Message :=
  { From := "sender@example.com", To := ["recipient@example.com"], Cc := [], Bcc := [],
    Subject := "Test Subject", Body := "Hello World", ContentType := "text/plain",
    Attachments := [] }

/-- A memory that holds the given arrays, array `a` being the `a`-th list, in which
`append` allocates exactly the capacity it needs. -/
def Memory.ofArrays (arrays : List (List String)) : Memory :=
  { cells := fun a i => (arrays.getD a []).getD i "",
    next := arrays.length,
    grow := fun _ needed => needed }

/-- The memory of the message of `TestMessage_Bytes`: the array of its one
recipient. -/
def testMemory : Memory := Memory.ofArrays [["recipient@example.com"]]

/-- The struct of the message of `TestMessage_Bytes`, in `testMemory`. -/
def testStruct : MessageStruct :=
  { From := "sender@example.com", To := { arr := 0, off := 0, len := 1, cap := 1 },
    Cc := Slice.empty, Bcc := Slice.empty, Subject := "Test Subject", Body := "Hello World",
    ContentType := "text/plain", Attachments := [] }

/-- The struct of a message whose `From` was never set, with the recipient of
`testMemory`. -/
def noFromStruct : MessageStruct :=
  { From := "", To := { arr := 0, off := 0, len := 1, cap := 1 },
    Cc := Slice.empty, Bcc := Slice.empty, Subject := "Test Subject", Body := "Hello World",
    ContentType := "text/plain", Attachments := [] }

/-- The memory after `base := []string{"a@x.com", "b@x.com"}` (array 0) and
`[]string{"c@x.com"}` (array 1). -/
def sharedMemory : Memory := Memory.ofArrays [["a@x.com", "b@x.com"], ["c@x.com"]]

/-- A message with `To: base[:1]` and `Cc: []string{"c@x.com"}` in `sharedMemory`. -/
def firstShared : MessageStruct :=
  { From := "s@x.com", To := { arr := 0, off := 0, len := 1, cap := 2 },
    Cc := { arr := 1, off := 0, len := 1, cap := 1 }, Bcc := Slice.empty,
    Subject := "One", Body := "Hello", ContentType := "text/plain", Attachments := [] }

/-- A message with `To: base` in `sharedMemory`. -/
def secondShared : MessageStruct :=
  { From := "s@x.com", To := { arr := 0, off := 0, len := 2, cap := 2 },
    Cc := Slice.empty, Bcc := Slice.empty,
    Subject := "Two", Body := "Hello", ContentType := "text/plain", Attachments := [] }

/-- A message with `To: base[:1]`, `Cc: []string{"c@x.com"}` and `Bcc: base[1:2]`
in `sharedMemory`. -/
def selfShared : MessageStruct :=
  { From := "s@x.com", To := { arr := 0, off := 0, len := 1, cap := 2 },
    Cc := { arr := 1, off := 0, len := 1, cap := 1 },
    Bcc := { arr := 0, off := 1, len := 1, cap := 1 },
    Subject := "One", Body := "Hello", ContentType := "text/plain", Attachments := [] }

/-- A message with `To: base[:1]` and `Cc: base[1:2]` in `sharedMemory`. -/
def overlapShared : MessageStruct :=
  { From := "s@x.com", To := { arr := 0, off := 0, len := 1, cap := 2 },
    Cc := { arr := 0, off := 1, len := 1, cap := 1 }, Bcc := Slice.empty,
    Subject := "One", Body := "Hello", ContentType := "text/plain", Attachments := [] }

/-- The memory before any allocation, in which `append` allocates exactly the
capacity it needs. -/
def emptyMemory : Memory := Memory.ofArrays []

/-- The attachment of `TestMessage_Attachments`. -/
def testAttachment : Attachment :=
  { Filename := "test.txt", ContentType := "text/plain", Content := asciiBytes "file content",
    Inline := false }

/-- A file system with the one readable file `/tmp/report.pdf`; every other path
fails to open. -/
def testFileSystem : FileSystem := fun path =>
  if path = "/tmp/report.pdf" then .ok (asciiBytes "file content", none)
  else .error "open: no such file or directory"

/-- A `FileOption` written by a caller: the Go function on `a *Attachment` with the
body `a.ContentType = "text/plain"; a.Content = nil`. -/
def overwritingOption : FileOption :=
  fun a => { a with ContentType := "text/plain", Content := [] }

/-- A valid message whose subject carries a CRLF followed by a header line. -/
def injectedHeaderMessage : Message :=
  { From := "sender@example.com", To := ["recipient@example.com"], Cc := [], Bcc := [],
    Subject := "Hi\r\nX-Injected: yes", Body := "Hello World", ContentType := "text/plain",
    Attachments := [] }

/-- A valid message whose subject carries a blank line. -/
def injectedBlankMessage : Message :=
  { From := "sender@example.com", To := ["recipient@example.com"], Cc := [], Bcc := [],
    Subject := "Hi\r\n\r\nearly", Body := "Hello World", ContentType := "text/plain",
    Attachments := [] }

/-- A valid message whose subject carries a CRLF followed by a `Content-Type`
header line. -/
def injectedContentTypeMessage : Message :=
  { From := "sender@example.com", To := ["recipient@example.com"], Cc := [], Bcc := [],
    Subject := "Hi\r\nContent-Type: text/html", Body := "Hello World",
    ContentType := "text/plain", Attachments := [] }

/-- A boundary as `multipart.NewWriter` draws them: sixty hexadecimal digits. -/
def hexBoundary : String := "0123456789abcdef0123456789abcdef0123456789abcdef0123456789ab"

/-- A valid message with one attachment whose body text holds a line equal to the
delimiter line of `hexBoundary`. -/
def delimiterBodyMessage : Message :=
  { From := "sender@example.com", To := ["recipient@example.com"], Cc := [], Bcc := [],
    Subject := "Attachment Test",
    Body := "See attachment\r\n--0123456789abcdef0123456789abcdef0123456789abcdef0123456789ab\r\nmore",
    ContentType := "text/plain", Attachments := [testAttachment] }

/-- The message of `TestMessage_Attachments`. -/
def testMessageAttachments : Message :=
  { From := "sender@example.com", To := ["recipient@example.com"], Cc := [], Bcc := [],
    Subject := "Attachment Test", Body := "See attachment", ContentType := "text/plain",
    Attachments := [testAttachment] }

/-! ## Lemmas on the standard-library model -/

theorem mk_append_mk (a b : List Char) : String.mk a ++ String.mk b = String.mk (a ++ b) := rfl

theorem Encode_triples_append (k : Nat) : ∀ (xs ys : List Byte), xs.length = 3 * k →
    Encode (xs ++ ys) = Encode xs ++ Encode ys := by
  induction k with
  | zero =>
      intro xs ys h
      have : xs = [] := List.length_eq_zero.mp (by omega)
      subst this
      simp [Encode]
  | succ k ih =>
      intro xs ys h
      match xs, h with
      | b0 :: b1 :: b2 :: rest, h =>
          have hr : rest.length = 3 * k := by simp at h; omega
          simp [Encode, ih rest ys hr]

theorem Encode_take_drop (data : List Byte) :
    Encode (data.take (data.length / 3 * 3)) ++ Encode (data.drop (data.length / 3 * 3))
      = Encode data := by
  have h := Encode_triples_append (data.length / 3) (data.take (data.length / 3 * 3))
    (data.drop (data.length / 3 * 3)) (by simp [List.length_take]; omega)
  rw [List.take_append_drop] at h
  exact h.symm

theorem partWrite_open (x : Writer) (d : String)
    (hx : x.lastpart = some { closed := false, we := none }) :
    x.partWrite d = .ok { x with w := x.w ++ d } := by
  simp [Writer.partWrite, hx]

/-- A fresh encoder, one `Write` of the whole content and `Close`, on an open part:
no error, and the part receives `EncodeToString content`. -/
theorem encoder_stream (mw : Writer) (content : List Byte)
    (hp : mw.lastpart = some { closed := false, we := none }) :
    ∃ enc mw2, NewEncoder.Write mw content = (enc, mw2, none) ∧
      (enc.Close mw2).2.1 = { mw with w := mw.w ++ EncodeToString content } := by
  by_cases hn : content.length / 3 * 3 = 0
  · refine ⟨{ err := none, buf := content }, mw, ?_, ?_⟩
    · simp [encoder.Write, NewEncoder, hn]
    · by_cases hl : content.length > 0
      · simp [encoder.Close, hl, partWrite_open mw _ hp, EncodeToString]
      · have : content = [] := List.length_eq_zero.mp (by omega)
        subst this
        simp [encoder.Close, EncodeToString, Encode]
  · refine ⟨{ err := none, buf := content.drop (content.length / 3 * 3) },
      { mw with w := mw.w ++ String.mk (Encode (content.take (content.length / 3 * 3))) }, ?_, ?_⟩
    · simp [encoder.Write, NewEncoder, hn, partWrite_open mw _ hp]
    · by_cases hl : (content.drop (content.length / 3 * 3)).length > 0
      · rw [encoder.Close]
        simp only [hl, if_true]
        rw [partWrite_open _ _ (by simpa using hp)]
        simp only [String.append_assoc, mk_append_mk, Encode_take_drop, EncodeToString]
      · have hd : content.drop (content.length / 3 * 3) = [] :=
          List.length_eq_zero.mp (by omega)
        have := Encode_take_drop content
        rw [hd] at this
        simp [Encode] at this
        simp [encoder.Close, hd, EncodeToString, this]

theorem bodyHeader_lines (ct : String) :
    MIMEHeader.lines (MIMEHeader.Set [] "Content-Type" ct) = "Content-Type: " ++ ct ++ "\r\n" := by
  simp [MIMEHeader.lines, MIMEHeader.Set, String.join]

theorem attHeader_lines (att : Attachment) :
    (attHeader att).lines =
      "Content-Disposition: " ++ disposition att ++ "\r\n" ++
      "Content-Transfer-Encoding: base64\r\n" ++
      ("Content-Type: " ++ att.ContentType ++ "\r\n") := by
  have h1 : ("Content-Disposition" != "Content-Type") = true := by decide
  have h2 : ("Content-Disposition" != "Content-Transfer-Encoding") = true := by decide
  have h3 : ("Content-Type" != "Content-Transfer-Encoding") = true := by decide
  have o1 : stringLE "Content-Type".data "Content-Transfer-Encoding".data = false := by decide
  have o2 : stringLE "Content-Disposition".data "Content-Transfer-Encoding".data = true := by
    decide
  have o3 : stringLE "Content-Disposition".data "Content-Type".data = true := by decide
  cases hi : att.Inline <;>
    simp [attHeader, MIMEHeader.Set, MIMEHeader.lines, disposition, hi, List.filter, h1, h2, h3,
      List.insertionSort, List.orderedInsert, o1, o2, o3, String.join, String.append_assoc] <;>
    rfl

/-! ## Base64 round trip -/

theorem decodeChar_encodeChar_fin : ∀ i : Fin 64, decodeChar (encodeChar i.val) = some i.val := by
  decide

theorem encodeChar_ne_pad_fin : ∀ i : Fin 64, encodeChar i.val ≠ padChar := by
  decide

theorem decodeChar_encodeChar (i : Nat) (h : i < 64) : decodeChar (encodeChar i) = some i :=
  decodeChar_encodeChar_fin ⟨i, h⟩

theorem encodeChar_ne_pad (i : Nat) (h : i < 64) : encodeChar i ≠ padChar :=
  encodeChar_ne_pad_fin ⟨i, h⟩

theorem Encode_cons_ne_nil (b : Byte) (rest : List Byte) :
    ∃ c cs, Encode (b :: rest) = c :: cs := by
  match rest with
  | [] => exact ⟨_, _, rfl⟩
  | [_] => exact ⟨_, _, rfl⟩
  | _ :: _ :: _ => exact ⟨_, _, rfl⟩

theorem decodeQuantum_full (b0 b1 b2 : Byte) :
    decodeQuantum ((b0.val * 65536 + b1.val * 256 + b2.val) / 262144 % 64)
      ((b0.val * 65536 + b1.val * 256 + b2.val) / 4096 % 64)
      ((b0.val * 65536 + b1.val * 256 + b2.val) / 64 % 64)
      ((b0.val * 65536 + b1.val * 256 + b2.val) % 64) = [b0, b1, b2] := by
  have h0 := b0.isLt
  have h1 := b1.isLt
  have h2 := b2.isLt
  simp only [decodeQuantum, byteOf, List.cons.injEq, and_true]
  refine ⟨Fin.ext ?_, Fin.ext ?_, Fin.ext ?_⟩ <;> simp only <;> omega

theorem decodeLast_full (b0 b1 b2 : Byte) :
    decodeLast (encodeChar ((b0.val * 65536 + b1.val * 256 + b2.val) / 262144 % 64))
      (encodeChar ((b0.val * 65536 + b1.val * 256 + b2.val) / 4096 % 64))
      (encodeChar ((b0.val * 65536 + b1.val * 256 + b2.val) / 64 % 64))
      (encodeChar ((b0.val * 65536 + b1.val * 256 + b2.val) % 64)) = some [b0, b1, b2] := by
  have m0 := Nat.mod_lt ((b0.val * 65536 + b1.val * 256 + b2.val) / 262144) (by decide : 64 > 0)
  have m1 := Nat.mod_lt ((b0.val * 65536 + b1.val * 256 + b2.val) / 4096) (by decide : 64 > 0)
  have m2 := Nat.mod_lt ((b0.val * 65536 + b1.val * 256 + b2.val) / 64) (by decide : 64 > 0)
  have m3 := Nat.mod_lt (b0.val * 65536 + b1.val * 256 + b2.val) (by decide : 64 > 0)
  simp only [decodeLast, decodeChar_encodeChar _ m0, decodeChar_encodeChar _ m1,
    decodeChar_encodeChar _ m2, decodeChar_encodeChar _ m3, encodeChar_ne_pad _ m2,
    encodeChar_ne_pad _ m3, false_and, if_false, decodeQuantum_full]

theorem decodeLast_two (b0 b1 : Byte) :
    decodeLast (encodeChar ((b0.val * 65536 + b1.val * 256) / 262144 % 64))
      (encodeChar ((b0.val * 65536 + b1.val * 256) / 4096 % 64))
      (encodeChar ((b0.val * 65536 + b1.val * 256) / 64 % 64)) padChar = some [b0, b1] := by
  have m0 := Nat.mod_lt ((b0.val * 65536 + b1.val * 256) / 262144) (by decide : 64 > 0)
  have m1 := Nat.mod_lt ((b0.val * 65536 + b1.val * 256) / 4096) (by decide : 64 > 0)
  have m2 := Nat.mod_lt ((b0.val * 65536 + b1.val * 256) / 64) (by decide : 64 > 0)
  have h0 := b0.isLt
  have h1 := b1.isLt
  simp only [decodeLast, decodeChar_encodeChar _ m0, decodeChar_encodeChar _ m1,
    decodeChar_encodeChar _ m2, encodeChar_ne_pad _ m2, false_and, if_false, if_true,
    decodeQuantum, byteOf, List.take, Option.some.injEq, List.cons.injEq, and_true]
  refine ⟨Fin.ext ?_, Fin.ext ?_⟩ <;> simp only <;> omega

theorem decodeLast_one (b0 : Byte) :
    decodeLast (encodeChar ((b0.val * 65536) / 262144 % 64))
      (encodeChar ((b0.val * 65536) / 4096 % 64)) padChar padChar = some [b0] := by
  have m0 := Nat.mod_lt ((b0.val * 65536) / 262144) (by decide : 64 > 0)
  have m1 := Nat.mod_lt ((b0.val * 65536) / 4096) (by decide : 64 > 0)
  have h0 := b0.isLt
  simp only [decodeLast, decodeChar_encodeChar _ m0, decodeChar_encodeChar _ m1,
    and_self, if_true, decodeQuantum, byteOf, List.take, Option.some.injEq, List.cons.injEq,
    and_true]
  refine Fin.ext ?_
  simp only
  omega

/-- Standard base64 decoding inverts `Encode`. -/
theorem stdDecode_Encode : ∀ (src : List Byte), stdDecode (Encode src) = some src
  | [] => by simp [Encode, stdDecode]
  | [b0] => by
      simp only [Encode, stdDecode]
      exact decodeLast_one b0
  | [b0, b1] => by
      simp only [Encode, stdDecode]
      exact decodeLast_two b0 b1
  | [b0, b1, b2] => by
      simp only [Encode, stdDecode]
      exact decodeLast_full b0 b1 b2
  | b0 :: b1 :: b2 :: b3 :: rest => by
      have ih := stdDecode_Encode (b3 :: rest)
      obtain ⟨c, cs, hcs⟩ := Encode_cons_ne_nil b3 rest
      have m0 := Nat.mod_lt ((b0.val * 65536 + b1.val * 256 + b2.val) / 262144)
        (by decide : 64 > 0)
      have m1 := Nat.mod_lt ((b0.val * 65536 + b1.val * 256 + b2.val) / 4096)
        (by decide : 64 > 0)
      have m2 := Nat.mod_lt ((b0.val * 65536 + b1.val * 256 + b2.val) / 64) (by decide : 64 > 0)
      have m3 := Nat.mod_lt (b0.val * 65536 + b1.val * 256 + b2.val) (by decide : 64 > 0)
      rw [Encode, hcs]
      rw [hcs] at ih
      simp only [stdDecode, decodeChar_encodeChar _ m0, decodeChar_encodeChar _ m1,
        decodeChar_encodeChar _ m2, decodeChar_encodeChar _ m3, ih, decodeQuantum_full]
      rfl

/-- Decoding the base64 text of a byte sequence gives the sequence back. -/
theorem DecodeString_EncodeToString (src : List Byte) :
    DecodeString (EncodeToString src) = some src := by
  simp [DecodeString, EncodeToString, stdDecode_Encode]

/-! ## Lemmas on `Message.Bytes` -/

theorem Validate_eq_none_iff (m : Message) : m.Validate = none ↔ m.From ≠ "" ∧ m.To ≠ [] := by
  unfold Message.Validate
  by_cases hF : m.From = ""
  · simp [hF]
  · cases hT : m.To <;> simp [hF]

/-- The attachment loop on an open part never fails and appends `attachmentsText`. -/
theorem writeAttachments_ok : ∀ (atts : List Attachment) (mw : Writer),
    mw.lastpart = some { closed := false, we := none } →
    writeAttachments mw atts =
      .ok { mw with w := mw.w ++ attachmentsText mw.boundary atts } := by
  intro atts
  induction atts with
  | nil =>
      intro mw _
      simp [writeAttachments, attachmentsText]
  | cons att rest ih =>
      intro mw hp
      have hc : mw.CreatePart (attHeader att) = .ok { mw with
          w := mw.w ++ ("\r\n--" ++ mw.boundary ++ "\r\n" ++ (attHeader att).lines ++ "\r\n")
          lastpart := some { closed := false, we := none } } := by
        simp [Writer.CreatePart, hp]
      obtain ⟨enc, mw2, hw, hcl⟩ := encoder_stream { mw with
          w := mw.w ++ ("\r\n--" ++ mw.boundary ++ "\r\n" ++ (attHeader att).lines ++ "\r\n")
          lastpart := some { closed := false, we := none } } att.Content rfl
      rw [writeAttachments, hc]
      simp only [hw]
      have hcl2 : enc.Close mw2 =
          ((enc.Close mw2).1, (enc.Close mw2).2.1, (enc.Close mw2).2.2) := rfl
      rw [hcl2, hcl]
      simp only
      rw [ih _ rfl]
      simp [attachmentsText, Attachment.Base64, String.append_assoc, hp]

/-- Followed by the closing delimiter, what the attachment loop appends is the rest
of a multipart body with one part per attachment. -/
theorem attachmentsText_closing (boundary : String) (atts : List Attachment) :
    attachmentsText boundary atts ++ ("\r\n--" ++ boundary ++ "--\r\n") =
      multipartRest boundary
        (atts.map (fun att => (attHeader att).lines ++ "\r\n" ++ att.Base64)) := by
  induction atts with
  | nil => simp [attachmentsText, multipartRest]
  | cons att rest ih =>
      simp only [attachmentsText, multipartRest, List.map_cons, String.append_assoc]
      simp only [String.append_assoc] at ih
      rw [ih]

/-- The exact output of `Bytes` for a valid message with attachments. -/
theorem Bytes_multipart (m : Message) (boundary : String)
    (hF : m.From ≠ "") (hT : m.To ≠ []) (hA : m.Attachments ≠ []) :
    m.Bytes boundary = .ok (headerBlock m ++
      ("Content-Type: multipart/mixed; boundary=" ++ boundary ++ "\r\n") ++ "\r\n" ++
      multipartBody boundary
        (("Content-Type: " ++ m.ContentType ++ "\r\n" ++ "\r\n" ++ m.Body) ::
          m.Attachments.map (fun att => (attHeader att).lines ++ "\r\n" ++ att.Base64))) := by
  have hv : m.Validate = none := (Validate_eq_none_iff m).mpr ⟨hF, hT⟩
  have hTl : m.To.length > 0 := List.length_pos.mpr hT
  have hAl : m.Attachments.length > 0 := List.length_pos.mpr hA
  have hcl := attachmentsText_closing boundary m.Attachments
  unfold Message.Bytes
  simp only [hv, hTl, hAl, if_true, NewWriter, Writer.WriteString, Writer.Boundary,
    Writer.CreatePart, bodyHeader_lines, Writer.partWrite, Bool.false_eq_true, if_false]
  rw [writeAttachments_ok _ _ rfl]
  simp only [Writer.Close, multipartBody, ← hcl]
  cases hc : m.Cc <;> simp [headerBlock, String.append_assoc, hc]

/-- The exact output of `Bytes` for a valid message without attachments. -/
theorem Bytes_simple (m : Message) (boundary : String)
    (hF : m.From ≠ "") (hT : m.To ≠ []) (hA : m.Attachments = []) :
    m.Bytes boundary = .ok (headerBlock m ++ ("Content-Type: " ++ m.ContentType ++ "\r\n") ++
      "\r\n" ++ m.Body) := by
  have hv : m.Validate = none := (Validate_eq_none_iff m).mpr ⟨hF, hT⟩
  have hTl : m.To.length > 0 := List.length_pos.mpr hT
  cases hc : m.Cc <;>
    simp [Message.Bytes, hv, hTl, hA, hc, headerBlock, NewWriter, Writer.WriteString,
      String.append_assoc]

theorem Bytes_invalid (m : Message) (boundary : String) (err : Error)
    (h : m.Validate = some err) : m.Bytes boundary = .error err := by
  simp [Message.Bytes, h]

theorem Bytes_valid_ok (m : Message) (boundary : String) (hF : m.From ≠ "") (hT : m.To ≠ []) :
    ∃ out, m.Bytes boundary = .ok out := by
  by_cases hA : m.Attachments = []
  · exact ⟨_, Bytes_simple m boundary hF hT hA⟩
  · exact ⟨_, Bytes_multipart m boundary hF hT hA⟩

theorem multipartRest_closing (boundary : String) (ps : List String) :
    ∃ front, multipartRest boundary ps = front ++ ("\r\n--" ++ boundary ++ "--\r\n") := by
  induction ps with
  | nil => exact ⟨"", by simp [multipartRest]⟩
  | cons p ps ih =>
      obtain ⟨front, hfront⟩ := ih
      exact ⟨"\r\n--" ++ boundary ++ "\r\n" ++ p ++ front, by
        simp [multipartRest, hfront, String.append_assoc]⟩

/-! ## The claims on `Message.Bytes` -/

/-- C1: `Bytes` succeeds exactly when `From` is non-empty and `To` holds at least
one address; it returns an error (and no bytes) exactly when one of them is missing;
and every error `Bytes` returns is the error of `Validate`, so the error branches of
the multipart and base64 writers are never taken. -/
theorem Bytes_succeeds_iff_valid (m : Message) (boundary : String) :
    ((∃ out, m.Bytes boundary = .ok out) ↔ (m.From ≠ "" ∧ m.To ≠ [])) ∧
    ((∃ err, m.Bytes boundary = .error err) ↔ (m.From = "" ∨ m.To = [])) ∧
    (∀ err, m.Bytes boundary = .error err ↔ m.Validate = some err) := by
  by_cases hv : m.From ≠ "" ∧ m.To ≠ []
  · obtain ⟨out, hout⟩ := Bytes_valid_ok m boundary hv.1 hv.2
    have hn : m.Validate = none := (Validate_eq_none_iff m).mpr hv
    refine ⟨⟨fun _ => hv, fun _ => ⟨out, hout⟩⟩, ⟨?_, ?_⟩, ?_⟩
    · rintro ⟨err, herr⟩
      rw [hout] at herr
      cases herr
    · rintro (h | h)
      · exact absurd h hv.1
      · exact absurd h hv.2
    · intro err
      rw [hout, hn]
      constructor <;> intro h <;> cases h
  · have hn : m.Validate ≠ none := fun h => hv ((Validate_eq_none_iff m).mp h)
    obtain ⟨e, he⟩ := Option.ne_none_iff_exists'.mp hn
    have hb := Bytes_invalid m boundary e he
    refine ⟨⟨?_, fun h => absurd h hv⟩, ⟨fun _ => ?_, fun _ => ⟨e, hb⟩⟩, ?_⟩
    · rintro ⟨out, hout⟩
      rw [hb] at hout
      cases hout
    · by_cases hF : m.From = ""
      · exact Or.inl hF
      · by_cases hT : m.To = []
        · exact Or.inr hT
        · exact absurd ⟨hF, hT⟩ hv
    · intro err
      rw [hb, he]
      constructor
      · intro h
        cases h
        rfl
      · intro h
        cases h
        rfl

/-- C4: for a valid message with attachments, the first part of the multipart body
has the single header `Content-Type` with the body content type and the raw body
text as content; one part per attachment follows, in the order of the attachment
list, with the headers `Content-Disposition` (`inline; filename="<name>"` for an
inline attachment, else `attachment; filename="<name>"`),
`Content-Transfer-Encoding: base64` and `Content-Type` with the content type of the
attachment. -/
theorem Bytes_multipart_parts (m : Message) (boundary : String)
    (hF : m.From ≠ "") (hT : m.To ≠ []) (hA : m.Attachments ≠ []) :
    m.Bytes boundary = .ok (headerBlock m ++
      ("Content-Type: multipart/mixed; boundary=" ++ boundary ++ "\r\n") ++ "\r\n" ++
      multipartBody boundary
        (partText [("Content-Type", m.ContentType)] m.Body ::
          m.Attachments.map (fun att =>
            partText
              [("Content-Disposition",
                  if att.Inline then "inline; filename=\"" ++ att.Filename ++ "\""
                  else "attachment; filename=\"" ++ att.Filename ++ "\""),
                ("Content-Transfer-Encoding", "base64"),
                ("Content-Type", att.ContentType)]
              att.Base64))) := by
  rw [Bytes_multipart m boundary hF hT hA]
  have hb : ("Content-Type: " ++ m.ContentType ++ "\r\n" ++ "\r\n" ++ m.Body) =
      partText [("Content-Type", m.ContentType)] m.Body := by
    simp [partText, String.join, String.append_assoc]
    rfl
  have ha : (fun att : Attachment => (attHeader att).lines ++ "\r\n" ++ att.Base64) =
      (fun att : Attachment =>
        partText
          [("Content-Disposition",
              if att.Inline then "inline; filename=\"" ++ att.Filename ++ "\""
              else "attachment; filename=\"" ++ att.Filename ++ "\""),
            ("Content-Transfer-Encoding", "base64"),
            ("Content-Type", att.ContentType)]
          att.Base64) := by
    funext att
    rw [attHeader_lines]
    simp [partText, String.join, String.append_assoc, disposition]
    rfl
  rw [hb, ha]

/-- Witness of C4: the message of `TestMessage_Attachments`. -/
theorem Bytes_multipart_parts_witness :
    testMessageAttachments.Bytes "b0" = .ok (headerBlock testMessageAttachments ++
      ("Content-Type: multipart/mixed; boundary=" ++ "b0" ++ "\r\n") ++ "\r\n" ++
      multipartBody "b0"
        [partText [("Content-Type", "text/plain")] "See attachment",
          partText
            [("Content-Disposition", "attachment; filename=\"test.txt\""),
              ("Content-Transfer-Encoding", "base64"),
              ("Content-Type", "text/plain")]
            "ZmlsZSBjb250ZW50"]) :=
  Bytes_multipart_parts testMessageAttachments "b0" (by decide) (by decide) (by decide)

/-- C5: for a valid message with attachments, the content of the part of every
attachment in the output of `Bytes` is the text `Base64()` returns, that is the
standard padded base64 text of `Content`, and decoding it gives `Content` back;
the content `file content` appears as `ZmlsZSBjb250ZW50`. -/
theorem Bytes_attachment_content_roundtrip (m : Message) (boundary : String)
    (hF : m.From ≠ "") (hT : m.To ≠ []) (hA : m.Attachments ≠ []) :
    m.Bytes boundary = .ok (headerBlock m ++
      ("Content-Type: multipart/mixed; boundary=" ++ boundary ++ "\r\n") ++ "\r\n" ++
      multipartBody boundary
        (("Content-Type: " ++ m.ContentType ++ "\r\n" ++ "\r\n" ++ m.Body) ::
          m.Attachments.map (fun att => (attHeader att).lines ++ "\r\n" ++ att.Base64))) ∧
    (∀ att ∈ m.Attachments,
      att.Base64 = EncodeToString att.Content ∧ DecodeString att.Base64 = some att.Content) ∧
    EncodeToString (asciiBytes "file content") = "ZmlsZSBjb250ZW50" :=
  ⟨Bytes_multipart m boundary hF hT hA,
    fun att _ => ⟨rfl, DecodeString_EncodeToString att.Content⟩, by decide⟩

/-- Witness of C5: the message of `TestMessage_Attachments`. -/
theorem Bytes_attachment_content_roundtrip_witness :
    testMessageAttachments.Bytes "b0" = .ok (headerBlock testMessageAttachments ++
      ("Content-Type: multipart/mixed; boundary=" ++ "b0" ++ "\r\n") ++ "\r\n" ++
      multipartBody "b0"
        (("Content-Type: " ++ "text/plain" ++ "\r\n" ++ "\r\n" ++ "See attachment") ::
          [testAttachment].map
            (fun att => (attHeader att).lines ++ "\r\n" ++ att.Base64))) ∧
    (∀ att ∈ testMessageAttachments.Attachments,
      att.Base64 = EncodeToString att.Content ∧ DecodeString att.Base64 = some att.Content) ∧
    EncodeToString (asciiBytes "file content") = "ZmlsZSBjb250ZW50" :=
  Bytes_attachment_content_roundtrip testMessageAttachments "b0" (by decide) (by decide)
    (by decide)

/-! ## The mock sender -/

theorem SendAll_no_error : ∀ (calls : List (List Message)) (mc : MockClient), mc.Err = none →
    (mc.SendAll calls).1.SentMessages = mc.SentMessages ++ calls.flatten ∧
    (mc.SendAll calls).1.Err = none ∧
    (mc.SendAll calls).2 = List.replicate calls.length none := by
  intro calls
  induction calls with
  | nil =>
      intro mc h
      simp [MockClient.SendAll, h]
  | cons messages calls ih =>
      intro mc h
      have hs : mc.Send messages =
          ({ mc with SentMessages := mc.SentMessages ++ messages }, none) := by
        simp [MockClient.Send, h]
      obtain ⟨h1, h2, h3⟩ := ih { mc with SentMessages := mc.SentMessages ++ messages } h
      simp only [MockClient.SendAll, hs]
      refine ⟨?_, h2, ?_⟩
      · rw [h1]
        simp
      · rw [h3]
        rfl

/-- C6: on a mock made by `NewMockClient` (no configured error), after the calls
`Send(L1)`, ..., `Send(LN)` the recorded list is `L1 ++ ... ++ LN`, in order, and every
call returned nil. -/
theorem MockClient_Send_accumulates (calls : List (List Message)) :
    (NewMockClient.SendAll calls).1.SentMessages = calls.flatten ∧
    (NewMockClient.SendAll calls).2 = List.replicate calls.length none := by
  obtain ⟨h1, _, h3⟩ := SendAll_no_error calls NewMockClient rfl
  exact ⟨by simpa [NewMockClient] using h1, h3⟩

/-- C7: a mock whose `Err` is set returns exactly that error from `Send` and records
nothing: the mock, and so `SentMessages`, is unchanged. -/
theorem MockClient_Send_error (mc : MockClient) (err : Error) (messages : List Message)
    (h : mc.Err = some err) :
    (mc.Send messages).2 = some err ∧ (mc.Send messages).1 = mc ∧
      (mc.Send messages).1.SentMessages = mc.SentMessages := by
  simp [MockClient.Send, h]

/-- Witness of C7: a mock with a preset error and an empty record. -/
theorem MockClient_Send_error_witness :
    (MockClient.Send { SentMessages := [], Err := some "boom" } [testMessage]).2 = some "boom" ∧
    (MockClient.Send { SentMessages := [], Err := some "boom" } [testMessage]).1 =
      { SentMessages := [], Err := some "boom" } ∧
    (MockClient.Send { SentMessages := [], Err := some "boom" } [testMessage]).1.SentMessages
      = [] :=
  MockClient_Send_error { SentMessages := [], Err := some "boom" } "boom" [testMessage] rfl

/-! ## Builders, attachment construction and further claims on `Bytes` -/

theorem foldl_provided (specs : List ProvidedOption) : ∀ (a : Attachment),
    (specs.map ProvidedOption.toFileOption).foldl (fun a opt => opt a) a =
      { Filename := (lastFileName specs).getD a.Filename, ContentType := a.ContentType,
        Content := a.Content, Inline := (lastInline specs).getD a.Inline } := by
  induction specs with
  | nil =>
      intro a
      rfl
  | cons spec rest ih =>
      intro a
      cases spec with
      | fileName name =>
          rw [List.map_cons, List.foldl_cons, ih]
          cases h : lastFileName rest <;>
            simp [lastFileName, lastInline, ProvidedOption.toFileOption, WithFileName, h]
      | inline flag =>
          rw [List.map_cons, List.foldl_cons, ih]
          cases h : lastInline rest <;>
            simp [lastFileName, lastInline, ProvidedOption.toFileOption, WithInline, h]

/-- `Base` of a path that ends in a separator followed by a name is that name. -/
theorem Base_dir_name (dir name : String) (hne : name ≠ "") (hs : '/' ∉ name.data) :
    Base (dir ++ "/" ++ name) = name := by
  have hd : (dir ++ "/" ++ name).data = dir.data ++ '/' :: name.data := by
    simp only [String.data_append, List.append_assoc]
    rfl
  have hnd : name.data ≠ [] := by
    intro h
    apply hne
    cases name
    simp only at h
    rw [h]
  have hp : dir ++ "/" ++ name ≠ "" := by
    intro h
    have := congrArg String.data h
    rw [hd] at this
    simp at this
  obtain ⟨c, cs, hrev⟩ : ∃ c cs, name.data.reverse = c :: cs := by
    cases hr : name.data.reverse with
    | nil => exact absurd (List.reverse_eq_nil_iff.mp hr) hnd
    | cons c cs => exact ⟨c, cs, rfl⟩
  have hall : ∀ x ∈ name.data.reverse, (x != '/') = true := by
    intro x hx
    have hx2 : x ∈ name.data := List.mem_reverse.mp hx
    simp only [bne_iff_ne, ne_eq]
    intro hxe
    exact hs (hxe ▸ hx2)
  have hc : (c == '/') = false := by
    have := hall c (by rw [hrev]; exact List.mem_cons_self c cs)
    simpa using this
  have hrevp : (dir.data ++ '/' :: name.data).reverse =
      name.data.reverse ++ '/' :: dir.data.reverse := by
    simp
  have hdrop : List.dropWhile (fun c => c == '/') (name.data.reverse ++ '/' :: dir.data.reverse) =
      name.data.reverse ++ '/' :: dir.data.reverse := by
    rw [hrev, List.cons_append, List.dropWhile_cons, hc]
    rfl
  have htake : List.takeWhile (fun c => c != '/')
      (name.data.reverse ++ '/' :: dir.data.reverse) = name.data.reverse := by
    rw [List.takeWhile_append_of_pos hall, List.takeWhile_cons]
    simp
  unfold Base
  rw [if_neg hp]
  simp only [hd, hrevp, hdrop, htake, List.reverse_reverse, if_neg hnd]

/-- `Base` of a non-empty path without separator is the path. -/
theorem Base_name (path : String) (hne : path ≠ "") (hs : '/' ∉ path.data) :
    Base path = path := by
  have hnd : path.data ≠ [] := by
    intro h
    apply hne
    cases path
    simp only at h
    rw [h]
  obtain ⟨c, cs, hrev⟩ : ∃ c cs, path.data.reverse = c :: cs := by
    cases hr : path.data.reverse with
    | nil => exact absurd (List.reverse_eq_nil_iff.mp hr) hnd
    | cons c cs => exact ⟨c, cs, rfl⟩
  have hall : ∀ x ∈ path.data.reverse, (x != '/') = true := by
    intro x hx
    have hx2 : x ∈ path.data := List.mem_reverse.mp hx
    simp only [bne_iff_ne, ne_eq]
    intro hxe
    exact hs (hxe ▸ hx2)
  have hc : (c == '/') = false := by
    have := hall c (by rw [hrev]; exact List.mem_cons_self c cs)
    simpa using this
  have hdrop : List.dropWhile (fun c => c == '/') path.data.reverse = path.data.reverse := by
    rw [hrev, List.dropWhile_cons, hc]
    rfl
  have htake : List.takeWhile (fun c => c != '/') path.data.reverse = path.data.reverse := by
    have := @List.takeWhile_append_of_pos Char (fun c => c != '/') path.data.reverse [] hall
    simpa using this
  unfold Base
  rw [if_neg hne]
  simp only [hdrop, htake, List.reverse_reverse, if_neg hnd]

/-- `Base` drops a trailing separator of a non-empty path. -/
theorem Base_trailing (path : String) (hne : path ≠ "") : Base (path ++ "/") = Base path := by
  have hd : (path ++ "/").data = path.data ++ ['/'] := by
    simp only [String.data_append]
  have hp : path ++ "/" ≠ "" := by
    intro h
    have := congrArg String.data h
    rw [hd] at this
    simp at this
  unfold Base
  rw [if_neg hp, if_neg hne]
  simp only [hd, List.reverse_append, List.reverse_cons, List.reverse_nil, List.nil_append,
    List.singleton_append, List.dropWhile_cons, beq_self_eq_true, if_true]

/-- C13 (amended): when the file is read in full, with bytes `content`, the
attachment made by `CreateAttachmentFromFile` with a list of `WithFileName` and
`WithInline` options has that content, the content type `application/octet-stream`,
the file name of the last `WithFileName` (else `Base path`) and the inline flag of
the last `WithInline` (else false); `Base path` is the final segment of the path: the
name after the last separator when a non-empty name follows it, and the path itself
when it is non-empty and holds no separator; a trailing separator is dropped, the
empty path gives `.` and the path `/` gives `/`. -/
theorem CreateAttachmentFromFile_ok (fs : FileSystem) (path : String) (content : List Byte)
    (specs : List ProvidedOption) (h : fs path = .ok (content, none)) :
    CreateAttachmentFromFile fs path (specs.map ProvidedOption.toFileOption) =
      .ok { Filename := (lastFileName specs).getD (Base path),
            ContentType := "application/octet-stream",
            Content := content,
            Inline := (lastInline specs).getD false } ∧
    (∀ dir name : String, name ≠ "" → '/' ∉ name.data → path = dir ++ "/" ++ name →
      Base path = name) ∧
    (path ≠ "" → '/' ∉ path.data → Base path = path) ∧
    (path ≠ "" → Base (path ++ "/") = Base path) ∧
    Base "" = "." ∧ Base "/" = "/" := by
  refine ⟨?_, ?_, ?_, Base_trailing path, by decide, by decide⟩
  · simp only [CreateAttachmentFromFile, readFile, h, foldl_provided]
  · intro dir name hne hs hp
    rw [hp]
    exact Base_dir_name dir name hne hs
  · intro hne hs
    exact Base_name path hne hs

/-- Witness of C13: a readable file, two file names and an inline flag. -/
theorem CreateAttachmentFromFile_ok_witness :
    CreateAttachmentFromFile testFileSystem "/tmp/report.pdf"
        [WithFileName "a.pdf", WithInline true, WithFileName "b.pdf"] =
      .ok { Filename := "b.pdf", ContentType := "application/octet-stream",
            Content := asciiBytes "file content", Inline := true } ∧
    CreateAttachmentFromFile testFileSystem "/tmp/report.pdf" [] =
      .ok { Filename := "report.pdf", ContentType := "application/octet-stream",
            Content := asciiBytes "file content", Inline := false } ∧
    Base "/tmp/report.pdf" = "report.pdf" :=
  ⟨(CreateAttachmentFromFile_ok testFileSystem "/tmp/report.pdf" (asciiBytes "file content")
      [.fileName "a.pdf", .inline true, .fileName "b.pdf"] rfl).1,
    (CreateAttachmentFromFile_ok testFileSystem "/tmp/report.pdf" (asciiBytes "file content")
      [] rfl).1,
    (CreateAttachmentFromFile_ok testFileSystem "/tmp/report.pdf" (asciiBytes "file content")
      [] rfl).2.1 "/tmp" "report.pdf" (by decide) (by decide) rfl⟩

/-- C13 as stated fails: `FileOption` is any function on the attachment, and an
option written by the caller that assigns `ContentType` and `Content` gives an
attachment with another content type and another content than the bytes read. -/
theorem CreateAttachmentFromFile_custom_option :
    testFileSystem "/tmp/report.pdf" = .ok (asciiBytes "file content", none) ∧
    CreateAttachmentFromFile testFileSystem "/tmp/report.pdf" [overwritingOption] =
      .ok { Filename := "report.pdf", ContentType := "text/plain", Content := [],
            Inline := false } ∧
    asciiBytes "file content" ≠ [] :=
  ⟨rfl, rfl, by decide⟩

/-- C14: when the file cannot be opened, or its read ends with an error, then
`CreateAttachmentFromFile` returns that error and no attachment whatever the options
are, and `AddAttachment` returns the same error and leaves the message, its
attachment list included, as it was. -/
theorem CreateAttachmentFromFile_read_error (fs : FileSystem) (path : String) (err : Error)
    (opts : List FileOption) (m : Message)
    (h : fs path = .error err ∨ ∃ read, fs path = .ok (read, some err)) :
    CreateAttachmentFromFile fs path opts = .error err ∧
    (m.AddAttachment fs path opts).2 = some err ∧
    (m.AddAttachment fs path opts).1 = m ∧
    (m.AddAttachment fs path opts).1.Attachments = m.Attachments := by
  have hc : CreateAttachmentFromFile fs path opts = .error err := by
    rcases h with h | ⟨read, h⟩ <;> simp [CreateAttachmentFromFile, readFile, h]
  simp [Message.AddAttachment, hc]

/-- Witness of C14: a path that does not exist. -/
theorem CreateAttachmentFromFile_read_error_witness :
    CreateAttachmentFromFile testFileSystem "/nonexistent" [WithInline true] =
      .error "open: no such file or directory" ∧
    (testMessage.AddAttachment testFileSystem "/nonexistent" [WithInline true]).2 =
      some "open: no such file or directory" ∧
    (testMessage.AddAttachment testFileSystem "/nonexistent" [WithInline true]).1 =
      testMessage ∧
    (testMessage.AddAttachment testFileSystem "/nonexistent" [WithInline true]).1.Attachments =
      testMessage.Attachments :=
  CreateAttachmentFromFile_read_error testFileSystem "/nonexistent"
    "open: no such file or directory" [WithInline true] testMessage (Or.inl rfl)

/-- C15: `AddAttachmentData` appends exactly one attachment at the end of the list,
with the given file name and content, not inline, with the given content type or
`application/octet-stream` when that is empty; every other field of the message is
unchanged.  (The call has no error result.) -/
theorem AddAttachmentData_appends (m : Message) (filename : String) (content : List Byte)
    (contentType : String) :
    (m.AddAttachmentData filename content contentType).Attachments =
      m.Attachments ++
        [{ Filename := filename,
           ContentType := if contentType = "" then "application/octet-stream" else contentType,
           Content := content, Inline := false }] ∧
    (m.AddAttachmentData filename content contentType).From = m.From ∧
    (m.AddAttachmentData filename content contentType).To = m.To ∧
    (m.AddAttachmentData filename content contentType).Cc = m.Cc ∧
    (m.AddAttachmentData filename content contentType).Bcc = m.Bcc ∧
    (m.AddAttachmentData filename content contentType).Subject = m.Subject ∧
    (m.AddAttachmentData filename content contentType).Body = m.Body ∧
    (m.AddAttachmentData filename content contentType).ContentType = m.ContentType :=
  ⟨rfl, rfl, rfl, rfl, rfl, rfl, rfl, rfl⟩

theorem Encode_length : ∀ (src : List Byte), (Encode src).length = 4 * ((src.length + 2) / 3)
  | [] => rfl
  | [_] => by simp [Encode]
  | [_, _] => by simp [Encode]
  | b0 :: b1 :: b2 :: rest => by
      have ih := Encode_length rest
      simp only [Encode, List.length_cons, ih]
      omega

/-- C16: `Base64()` returns the standard padded base64 text of `Content`: its length
is `4 * ceil(len(Content) / 3)`, standard base64 decoding gives `Content` back, and
the attachment is unchanged by the call. -/
theorem Base64_standard (a : Attachment) :
    a.callBase64.2 = EncodeToString a.Content ∧
    a.callBase64.2.length = 4 * ((a.Content.length + 2) / 3) ∧
    DecodeString a.callBase64.2 = some a.Content ∧
    a.callBase64.1 = a := by
  refine ⟨rfl, ?_, DecodeString_EncodeToString a.Content, rfl⟩
  show (String.mk (Encode a.Content)).length = _
  rw [String.length]
  exact Encode_length a.Content

/-- C18: when `Bytes` fails the error names the first missing field: an empty `From`
gives `from address is required` whatever `To` is, a non-empty `From` with an empty
`To` gives `at least one recipient (To) is required`; `Validate` returns the same
error as `Bytes`, and nil exactly when `Bytes` succeeds. -/
theorem Bytes_error_names_first_missing (m : Message) (boundary : String) :
    (m.From = "" → m.Bytes boundary = .error "from address is required" ∧
      m.Validate = some "from address is required") ∧
    (m.From ≠ "" → m.To = [] →
      m.Bytes boundary = .error "at least one recipient (To) is required" ∧
      m.Validate = some "at least one recipient (To) is required") ∧
    (∀ err, m.Validate = some err ↔ m.Bytes boundary = .error err) ∧
    (m.Validate = none ↔ ∃ out, m.Bytes boundary = .ok out) := by
  have hiff : ∀ err, m.Validate = some err ↔ m.Bytes boundary = .error err := by
    intro err
    constructor
    · exact Bytes_invalid m boundary err
    · intro hb
      cases hv : m.Validate with
      | none =>
          obtain ⟨hF, hT⟩ := (Validate_eq_none_iff m).mp hv
          obtain ⟨out, hout⟩ := Bytes_valid_ok m boundary hF hT
          rw [hout] at hb
          cases hb
      | some e =>
          rw [Bytes_invalid m boundary e hv] at hb
          cases hb
          rfl
  refine ⟨?_, ?_, hiff, ?_⟩
  · intro hF
    have hv : m.Validate = some "from address is required" := by simp [Message.Validate, hF]
    exact ⟨Bytes_invalid m boundary _ hv, hv⟩
  · intro hF hT
    have hv : m.Validate = some "at least one recipient (To) is required" := by
      simp [Message.Validate, hF, hT]
    exact ⟨Bytes_invalid m boundary _ hv, hv⟩
  · constructor
    · intro hv
      obtain ⟨hF, hT⟩ := (Validate_eq_none_iff m).mp hv
      exact Bytes_valid_ok m boundary hF hT
    · rintro ⟨out, hout⟩
      cases hv : m.Validate with
      | none => rfl
      | some e =>
          rw [Bytes_invalid m boundary e hv] at hout
          cases hout

/-- C19: the output of `Bytes` does not depend on `Bcc`: two messages that differ
only in their `Bcc` list give the same result with the same boundary token. -/
theorem Bytes_independent_of_Bcc (m : Message) (bcc : List String) (boundary : String) :
    Message.Bytes { m with Bcc := bcc } boundary = m.Bytes boundary :=
  rfl

/-! ## The header block and the first blank line -/

theorem splitAtBlank_blank (body : List Char) :
    splitAtBlank ('\r' :: '\n' :: '\r' :: '\n' :: body) = some ([], body) := by
  simp [splitAtBlank]

theorem splitAtBlank_clean_append (line : List Char) (h : ∀ c ∈ line, c ≠ '\r')
    (text : List Char) :
    splitAtBlank (line ++ text) =
      match splitAtBlank text with
      | some (header, body) => some (line ++ header, body)
      | none => none := by
  induction line with
  | nil =>
      rw [List.nil_append]
      rcases hs : splitAtBlank text with _ | ⟨header, body⟩ <;> simp
  | cons c rest ih =>
      have hc : c ≠ '\r' := h c (List.mem_cons_self c rest)
      have ih2 := ih (fun d hd => h d (List.mem_cons_of_mem c hd))
      rw [List.cons_append, splitAtBlank, if_neg (fun hh => hc hh.1), ih2]
      rcases hs : splitAtBlank text with _ | ⟨header, body⟩ <;> simp

theorem splitAtBlank_crlf_cons (c : Char) (hc : c ≠ '\r') (text : List Char) :
    splitAtBlank ('\r' :: '\n' :: c :: text) =
      match splitAtBlank (c :: text) with
      | some (header, body) => some ('\r' :: '\n' :: header, body)
      | none => none := by
  have h1 : ¬ ('\r' = '\r' ∧ ('\n' :: c :: text).take 3 = ['\n', '\r', '\n']) := by
    intro h
    have h2 := h.2
    simp only [List.take, List.cons.injEq] at h2
    exact hc h2.2.1
  have h2 : ¬ ('\n' = '\r' ∧ (c :: text).take 3 = ['\n', '\r', '\n']) := by
    intro h
    exact absurd h.1 (by decide)
  rw [splitAtBlank, if_neg h1]
  rw [splitAtBlank.eq_def ('\n' :: c :: text)]
  simp only [if_neg h2]
  rcases hs : splitAtBlank (c :: text) with _ | ⟨header, body⟩ <;> simp

theorem joinCRLF_cons_cons (line next : List Char) (lines : List (List Char)) :
    joinCRLF (line :: next :: lines) = line ++ '\r' :: '\n' :: joinCRLF (next :: lines) := rfl

theorem joinCRLF_head (c : Char) (line : List Char) (lines : List (List Char)) :
    ∃ text, joinCRLF ((c :: line) :: lines) = c :: text := by
  cases lines with
  | nil => exact ⟨line, rfl⟩
  | cons next rest => exact ⟨line ++ '\r' :: '\n' :: joinCRLF (next :: rest), rfl⟩

/-- A text made of non-empty lines without CR and LF, joined by CRLF and followed by
a blank line, splits at that blank line. -/
theorem splitAtBlank_joinCRLF : ∀ (lines : List (List Char)), lines ≠ [] →
    (∀ l ∈ lines, noCRLF l ∧ l ≠ []) → ∀ (body : List Char),
    splitAtBlank (joinCRLF lines ++ '\r' :: '\n' :: '\r' :: '\n' :: body) =
      some (joinCRLF lines, body) := by
  intro lines
  induction lines with
  | nil =>
      intro h
      exact absurd rfl h
  | cons line rest ih =>
      intro _ hall body
      have hline : ∀ c ∈ line, c ≠ '\r' :=
        fun c hc => ((hall line (List.mem_cons_self line rest)).1 c hc).1
      cases rest with
      | nil =>
          rw [show joinCRLF [line] = line from rfl, splitAtBlank_clean_append line hline,
            splitAtBlank_blank]
          simp
      | cons next more =>
          have hnext := hall next (List.mem_cons_of_mem line (List.mem_cons_self next more))
          have ih2 := ih (List.cons_ne_nil next more)
            (fun l hl => hall l (List.mem_cons_of_mem line hl)) body
          cases next with
          | nil => exact absurd rfl hnext.2
          | cons c tail =>
              have hc : c ≠ '\r' := (hnext.1 c (List.mem_cons_self c tail)).1
              obtain ⟨text, htext⟩ := joinCRLF_head c tail more
              rw [joinCRLF_cons_cons, List.append_assoc, splitAtBlank_clean_append line hline]
              rw [htext] at ih2 ⊢
              simp only [List.cons_append] at ih2 ⊢
              rw [splitAtBlank_crlf_cons c hc, ih2]

theorem countCRLF_clean_append (line : List Char) (h : ∀ c ∈ line, c ≠ '\r')
    (text : List Char) : countCRLF (line ++ text) = countCRLF text := by
  induction line with
  | nil => rfl
  | cons c rest ih =>
      have hc : c ≠ '\r' := h c (List.mem_cons_self c rest)
      rw [List.cons_append, countCRLF, if_neg (fun hh => hc hh.1),
        ih (fun d hd => h d (List.mem_cons_of_mem c hd)), Nat.zero_add]

theorem countCRLF_crlf (text : List Char) :
    countCRLF ('\r' :: '\n' :: text) = countCRLF text + 1 := by
  simp [countCRLF]
  omega

/-- Lines without CR, joined by CRLF: as many lines as were joined. -/
theorem lineCount_joinCRLF : ∀ (lines : List (List Char)), lines ≠ [] →
    (∀ l ∈ lines, noCRLF l) → lineCount (joinCRLF lines) = lines.length := by
  intro lines
  induction lines with
  | nil =>
      intro h
      exact absurd rfl h
  | cons line rest ih =>
      intro _ hall
      have hline : ∀ c ∈ line, c ≠ '\r' :=
        fun c hc => ((hall line (List.mem_cons_self line rest)) c hc).1
      cases rest with
      | nil =>
          have := countCRLF_clean_append line hline []
          rw [List.append_nil] at this
          simp [lineCount, joinCRLF, this, countCRLF]
      | cons next more =>
          have ih2 := ih (List.cons_ne_nil next more)
            (fun l hl => hall l (List.mem_cons_of_mem line hl))
          rw [lineCount] at ih2 ⊢
          rw [joinCRLF_cons_cons, countCRLF_clean_append line hline, countCRLF_crlf, ih2]
          rfl

theorem noCRLF_append (a b : List Char) (ha : noCRLF a) (hb : noCRLF b) : noCRLF (a ++ b) := by
  intro c hc
  rcases List.mem_append.mp hc with h | h
  · exact ha c h
  · exact hb c h

theorem Join_foldl_noCRLF : ∀ (rest : List String) (acc : String), noCRLF acc.data →
    (∀ a ∈ rest, noCRLF a.data) →
    noCRLF (rest.foldl (fun acc s => acc ++ ", " ++ s) acc).data := by
  intro rest
  induction rest with
  | nil =>
      intro acc h _
      exact h
  | cons e rest ih =>
      intro acc h hall
      rw [List.foldl_cons]
      refine ih _ ?_ (fun a ha => hall a (List.mem_cons_of_mem e ha))
      rw [String.data_append, String.data_append]
      refine noCRLF_append _ _ (noCRLF_append _ _ h ?_) (hall e (List.mem_cons_self e rest))
      unfold noCRLF
      decide

theorem Join_noCRLF (elems : List String) (h : ∀ a ∈ elems, noCRLF a.data) :
    noCRLF (Join elems ", ").data := by
  cases elems with
  | nil =>
      intro c hc
      cases hc
  | cons e rest =>
      exact Join_foldl_noCRLF rest e (h e (List.mem_cons_self e rest))
        (fun a ha => h a (List.mem_cons_of_mem e ha))

/-- The output of `Bytes` for a valid message without attachments is its header
lines joined by CRLF, a blank line, and the body. -/
theorem Bytes_simple_data (m : Message) (boundary : String)
    (hF : m.From ≠ "") (hT : m.To ≠ []) (hA : m.Attachments = []) :
    ∃ out, m.Bytes boundary = .ok out ∧
      out.data = joinCRLF ((headerLines m).map String.data) ++
        '\r' :: '\n' :: '\r' :: '\n' :: m.Body.data := by
  refine ⟨_, Bytes_simple m boundary hF hT hA, ?_⟩
  by_cases hc : m.Cc = []
  · simp only [headerBlock, headerLines, hc, if_true, String.data_append, List.map_cons,
      List.map_nil, List.append_nil, List.cons_append, List.nil_append, joinCRLF,
      List.append_assoc]
  · simp only [headerBlock, headerLines, hc, if_false, String.data_append, List.map_cons,
      List.map_nil, List.append_nil, List.cons_append, List.nil_append, joinCRLF,
      List.append_assoc]

theorem line_clean (name value : String) (hn : noCRLF name.data) (hne : name.data ≠ [])
    (hv : noCRLF value.data) : noCRLF (name ++ value).data ∧ (name ++ value).data ≠ [] := by
  rw [String.data_append]
  refine ⟨noCRLF_append _ _ hn hv, ?_⟩
  intro h
  exact hne (List.append_eq_nil.mp h).1

theorem headerLines_clean (m : Message) (hcF : noCRLF m.From.data)
    (hcT : ∀ a ∈ m.To, noCRLF a.data) (hcC : ∀ a ∈ m.Cc, noCRLF a.data)
    (hcS : noCRLF m.Subject.data) (hcCT : noCRLF m.ContentType.data) :
    ∀ l ∈ (headerLines m).map String.data, noCRLF l ∧ l ≠ [] := by
  have h1 := line_clean "From: " m.From (by unfold noCRLF; decide) (by decide) hcF
  have h2 := line_clean "To: " (Join m.To ", ") (by unfold noCRLF; decide) (by decide)
    (Join_noCRLF m.To hcT)
  have h3 := line_clean "Cc: " (Join m.Cc ", ") (by unfold noCRLF; decide) (by decide)
    (Join_noCRLF m.Cc hcC)
  have h4 := line_clean "Subject: " m.Subject (by unfold noCRLF; decide) (by decide) hcS
  have h5 : noCRLF "MIME-Version: 1.0".data ∧ "MIME-Version: 1.0".data ≠ [] :=
    ⟨by unfold noCRLF; decide, by decide⟩
  have h6 := line_clean "Content-Type: " m.ContentType (by unfold noCRLF; decide) (by decide)
    hcCT
  intro l hl
  by_cases hc : m.Cc = []
  · simp only [headerLines, hc, if_true, List.append_nil, List.cons_append, List.nil_append,
      List.map_cons, List.map_nil, List.mem_cons, List.mem_singleton, List.not_mem_nil,
      or_false] at hl
    rcases hl with rfl | rfl | rfl | rfl | rfl
    · exact h1
    · exact h2
    · exact h4
    · exact h5
    · exact h6
  · simp only [headerLines, hc, if_false, List.cons_append, List.nil_append,
      List.map_cons, List.map_nil, List.mem_cons, List.mem_singleton, List.not_mem_nil,
      or_false] at hl
    rcases hl with rfl | rfl | rfl | rfl | rfl | rfl
    · exact h1
    · exact h2
    · exact h3
    · exact h4
    · exact h5
    · exact h6

theorem headerLines_length (m : Message) :
    ((headerLines m).map String.data).length = if m.Cc = [] then 5 else 6 := by
  by_cases hc : m.Cc = [] <;> simp [headerLines, hc]

set_option maxRecDepth 100000 in
/-- C20: for a valid message without attachments whose `From`, `To` and `Cc`
entries, `Subject` and `ContentType` hold no CR and no LF, the output of `Bytes`
split at its first blank line gives the header lines joined by CRLF, 5 lines (6 with
a Cc address), and the body exactly.  Without that precondition this fails: a valid
message whose subject holds a CRLF gets a sixth header line without any Cc, and one
whose subject holds a blank line is split before its body. -/
theorem Bytes_header_block (m : Message) (boundary : String)
    (hF : m.From ≠ "") (hT : m.To ≠ []) (hA : m.Attachments = [])
    (hcF : noCRLF m.From.data) (hcT : ∀ a ∈ m.To, noCRLF a.data)
    (hcC : ∀ a ∈ m.Cc, noCRLF a.data) (hcS : noCRLF m.Subject.data)
    (hcCT : noCRLF m.ContentType.data) :
    (∃ out, m.Bytes boundary = .ok out ∧
      splitAtBlank out.data =
        some (joinCRLF ((headerLines m).map String.data), m.Body.data)) ∧
    lineCount (joinCRLF ((headerLines m).map String.data)) = (if m.Cc = [] then 5 else 6) ∧
    (¬ noCRLF injectedHeaderMessage.Subject.data ∧ injectedHeaderMessage.Cc = [] ∧
      (∃ out, injectedHeaderMessage.Bytes boundary = .ok out ∧
        splitAtBlank out.data = some
          ("From: sender@example.com\r\nTo: recipient@example.com\r\nSubject: Hi\r\nX-Injected: yes\r\nMIME-Version: 1.0\r\nContent-Type: text/plain".data,
            injectedHeaderMessage.Body.data)) ∧
      lineCount
        "From: sender@example.com\r\nTo: recipient@example.com\r\nSubject: Hi\r\nX-Injected: yes\r\nMIME-Version: 1.0\r\nContent-Type: text/plain".data
        = 6) ∧
    (¬ noCRLF injectedBlankMessage.Subject.data ∧
      (∃ out, injectedBlankMessage.Bytes boundary = .ok out ∧
        splitAtBlank out.data = some
          ("From: sender@example.com\r\nTo: recipient@example.com\r\nSubject: Hi".data,
            "early\r\nMIME-Version: 1.0\r\nContent-Type: text/plain\r\n\r\nHello World".data)) ∧
      "early\r\nMIME-Version: 1.0\r\nContent-Type: text/plain\r\n\r\nHello World".data ≠
        injectedBlankMessage.Body.data) := by
  have hclean := headerLines_clean m hcF hcT hcC hcS hcCT
  have hne : (headerLines m).map String.data ≠ [] := by
    intro h
    have := headerLines_length m
    rw [h] at this
    by_cases hc : m.Cc = [] <;> simp [hc] at this
  refine ⟨?_, ?_, ?_, ?_⟩
  · obtain ⟨out, hout, hdata⟩ := Bytes_simple_data m boundary hF hT hA
    exact ⟨out, hout, by rw [hdata, splitAtBlank_joinCRLF _ hne hclean]⟩
  · rw [lineCount_joinCRLF _ hne (fun l hl => (hclean l hl).1), headerLines_length]
  · exact ⟨by unfold noCRLF; decide, rfl,
      ⟨_, Bytes_simple injectedHeaderMessage boundary (by decide) (by decide) rfl, rfl⟩, rfl⟩
  · exact ⟨by unfold noCRLF; decide,
      ⟨_, Bytes_simple injectedBlankMessage boundary (by decide) (by decide) rfl, rfl⟩,
      by decide⟩

/-- Witness of C20: the message of `TestMessage_Bytes`, whose output splits into
five header lines and the body. -/
theorem Bytes_header_block_witness :
    (∃ out, testMessage.Bytes "b0" = .ok out ∧
      splitAtBlank out.data =
        some (joinCRLF ((headerLines testMessage).map String.data), testMessage.Body.data)) ∧
    lineCount (joinCRLF ((headerLines testMessage).map String.data)) =
      (if testMessage.Cc = [] then 5 else 6) :=
  have h := Bytes_header_block testMessage "b0" (by decide) (by decide) rfl
    (by unfold noCRLF; decide) (by unfold noCRLF; decide) (by unfold noCRLF; decide)
    (by unfold noCRLF; decide) (by unfold noCRLF; decide)
  ⟨h.1, h.2.1⟩

/-! ## Header lines of the output -/

theorem splitLines_ne_nil : ∀ (text : List Char), splitLines text ≠ []
  | [] => by simp [splitLines]
  | c :: rest => by
      rw [splitLines]
      rcases hs : splitLines rest with _ | ⟨l, ls⟩
      · simp
      · by_cases h : c = '\r' ∧ l.head? = some '\n' <;> simp [h]

theorem splitLines_clean (line : List Char) (h : ∀ c ∈ line, c ≠ '\r') :
    splitLines line = [line] := by
  induction line with
  | nil => rfl
  | cons c rest ih =>
      have hc : c ≠ '\r' := h c (List.mem_cons_self c rest)
      rw [splitLines, ih (fun d hd => h d (List.mem_cons_of_mem c hd))]
      simp [hc]

theorem splitLines_lf_cons (text : List Char) :
    splitLines ('\n' :: text) =
      match splitLines text with
      | [] => [['\n']]
      | l :: ls => ('\n' :: l) :: ls := by
  rw [splitLines]
  rcases hs : splitLines text with _ | ⟨l, ls⟩
  · rfl
  · have : ¬ ('\n' = '\r' ∧ l.head? = some '\n') := fun h => absurd h.1 (by decide)
    simp [this]

theorem splitLines_crlf (text : List Char) :
    splitLines ('\r' :: '\n' :: text) = [] :: splitLines text := by
  rw [splitLines, splitLines_lf_cons]
  rcases hs : splitLines text with _ | ⟨l, ls⟩
  · exact absurd hs (splitLines_ne_nil text)
  · simp

/-- Splitting distributes over a CRLF between two texts. -/
theorem splitLines_append_crlf (a b : List Char) :
    splitLines (a ++ '\r' :: '\n' :: b) = splitLines a ++ splitLines b := by
  induction a with
  | nil =>
      rw [List.nil_append, splitLines_crlf]
      rfl
  | cons c rest ih =>
      rw [List.cons_append, splitLines, ih, splitLines.eq_def (c :: rest)]
      rcases hs : splitLines rest with _ | ⟨l, ls⟩
      · exact absurd hs (splitLines_ne_nil rest)
      · by_cases h : c = '\r' ∧ l.head? = some '\n'
        · simp only [hs, List.cons_append, h, and_self, if_true]
        · simp only [hs, List.cons_append, h, if_false]

/-- Lines without CR, joined by CRLF, split back into the same lines. -/
theorem splitLines_joinCRLF : ∀ (lines : List (List Char)), lines ≠ [] →
    (∀ l ∈ lines, noCRLF l) → splitLines (joinCRLF lines) = lines := by
  intro lines
  induction lines with
  | nil =>
      intro h
      exact absurd rfl h
  | cons line rest ih =>
      intro _ hall
      have hline : ∀ c ∈ line, c ≠ '\r' :=
        fun c hc => ((hall line (List.mem_cons_self line rest)) c hc).1
      cases rest with
      | nil => exact splitLines_clean line hline
      | cons next more =>
          rw [joinCRLF_cons_cons, splitLines_append_crlf, splitLines_clean line hline,
            ih (List.cons_ne_nil next more) (fun l hl => hall l (List.mem_cons_of_mem line hl))]
          rfl

theorem Join_foldl_eq_go (sep : String) : ∀ (rest : List String) (acc : String),
    rest.foldl (fun acc s => acc ++ sep ++ s) acc = String.intercalate.go acc sep rest := by
  intro rest
  induction rest with
  | nil =>
      intro acc
      rfl
  | cons e rest ih =>
      intro acc
      rw [List.foldl_cons, ih]
      rfl

/-- `Join` is the joining of the elements with the separator between them. -/
theorem Join_eq_intercalate (elems : List String) (sep : String) :
    Join elems sep = sep.intercalate elems := by
  cases elems with
  | nil => rfl
  | cons e rest => exact Join_foldl_eq_go sep rest e

theorem headerLines_contentType (m : Message) :
    ((headerLines m).map String.data).filter isContentTypeHeader =
      [("Content-Type: " ++ m.ContentType).data] := by
  have e1 : isContentTypeHeader ("From: " ++ m.From).data = false := rfl
  have e2 : isContentTypeHeader ("To: " ++ Join m.To ", ").data = false := rfl
  have e3 : isContentTypeHeader ("Cc: " ++ Join m.Cc ", ").data = false := rfl
  have e4 : isContentTypeHeader ("Subject: " ++ m.Subject).data = false := rfl
  have e5 : isContentTypeHeader "MIME-Version: 1.0".data = false := rfl
  have e6 : isContentTypeHeader ("Content-Type: " ++ m.ContentType).data = true := rfl
  by_cases hc : m.Cc = []
  · simp only [headerLines, hc, if_true, List.append_nil, List.cons_append, List.nil_append,
      List.map_cons, List.map_nil, List.filter_cons, List.filter_nil, e1, e2, e4, e5, e6,
      if_true, Bool.false_eq_true, if_false]
  · simp only [headerLines, hc, if_false, List.cons_append, List.nil_append,
      List.map_cons, List.map_nil, List.filter_cons, List.filter_nil, e1, e2, e3, e4, e5, e6,
      if_true, Bool.false_eq_true, if_false]

/-- C2 (amended): for a message with non-empty `From`, non-empty `To` and no
attachment, `Bytes` returns exactly the `From` line, the `To` line (the addresses
joined with `, `), the `Cc` line only when there is a Cc address, the `Subject`,
`MIME-Version: 1.0` and `Content-Type` lines, each ended by CRLF, an empty CRLF line
and the body text verbatim; and when `From`, the `To` and `Cc` entries, `Subject` and
`ContentType` hold no CR and no LF, the header block before the first blank line has
a single `Content-Type` header line, the one of the body content type. -/
theorem Bytes_without_attachments (m : Message) (boundary : String)
    (hF : m.From ≠ "") (hT : m.To ≠ []) (hA : m.Attachments = []) :
    m.Bytes boundary = .ok
      ("From: " ++ m.From ++ "\r\n" ++
        ("To: " ++ ", ".intercalate m.To ++ "\r\n") ++
        (if m.Cc = [] then "" else "Cc: " ++ ", ".intercalate m.Cc ++ "\r\n") ++
        ("Subject: " ++ m.Subject ++ "\r\n") ++
        "MIME-Version: 1.0\r\n" ++
        ("Content-Type: " ++ m.ContentType ++ "\r\n") ++
        "\r\n" ++
        m.Body) ∧
    (noCRLF m.From.data → (∀ a ∈ m.To, noCRLF a.data) → (∀ a ∈ m.Cc, noCRLF a.data) →
      noCRLF m.Subject.data → noCRLF m.ContentType.data →
      ∃ out header, m.Bytes boundary = .ok out ∧
        splitAtBlank out.data = some (header, m.Body.data) ∧
        (splitLines header).filter isContentTypeHeader =
          [("Content-Type: " ++ m.ContentType).data]) := by
  refine ⟨?_, ?_⟩
  · rw [← Join_eq_intercalate, ← Join_eq_intercalate]
    exact Bytes_simple m boundary hF hT hA
  · intro hcF hcT hcC hcS hcCT
    have hclean := headerLines_clean m hcF hcT hcC hcS hcCT
    have hne : (headerLines m).map String.data ≠ [] := by
      intro h
      have := headerLines_length m
      rw [h] at this
      by_cases hc : m.Cc = [] <;> simp [hc] at this
    obtain ⟨out, hout, hdata⟩ := Bytes_simple_data m boundary hF hT hA
    refine ⟨out, joinCRLF ((headerLines m).map String.data), hout, ?_, ?_⟩
    · rw [hdata, splitAtBlank_joinCRLF _ hne hclean]
    · rw [splitLines_joinCRLF _ hne (fun l hl => (hclean l hl).1), headerLines_contentType]

set_option maxRecDepth 100000 in
/-- Witness of C2: the message of `TestMessage_Bytes`, whose fields hold no CR and no
LF. -/
theorem Bytes_without_attachments_witness :
    testMessage.Bytes "b0" = .ok
      "From: sender@example.com\r\nTo: recipient@example.com\r\nSubject: Test Subject\r\nMIME-Version: 1.0\r\nContent-Type: text/plain\r\n\r\nHello World" ∧
    ∃ out header, testMessage.Bytes "b0" = .ok out ∧
      splitAtBlank out.data = some (header, "Hello World".data) ∧
      (splitLines header).filter isContentTypeHeader = ["Content-Type: text/plain".data] :=
  ⟨(Bytes_without_attachments testMessage "b0" (by decide) (by decide) rfl).1,
    (Bytes_without_attachments testMessage "b0" (by decide) (by decide) rfl).2
      (by unfold noCRLF; decide) (by unfold noCRLF; decide) (by unfold noCRLF; decide)
      (by unfold noCRLF; decide) (by unfold noCRLF; decide)⟩

set_option maxRecDepth 100000 in
/-- C2 as stated fails: a valid message without attachments whose subject holds a
CRLF followed by `Content-Type: text/html` gets two `Content-Type` header lines in
its header block. -/
theorem Bytes_two_content_type_headers :
    injectedContentTypeMessage.From ≠ "" ∧ injectedContentTypeMessage.To ≠ [] ∧
    injectedContentTypeMessage.Attachments = [] ∧
    ∃ out header, injectedContentTypeMessage.Bytes "b0" = .ok out ∧
      splitAtBlank out.data = some (header, injectedContentTypeMessage.Body.data) ∧
      (splitLines header).filter isContentTypeHeader =
        ["Content-Type: text/html".data, "Content-Type: text/plain".data] :=
  ⟨by decide, by decide, rfl, _,
    "From: sender@example.com\r\nTo: recipient@example.com\r\nSubject: Hi\r\nContent-Type: text/html\r\nMIME-Version: 1.0\r\nContent-Type: text/plain".data,
    Bytes_simple injectedContentTypeMessage "b0" (by decide) (by decide) rfl, rfl, rfl⟩

/-! ## The parts of the multipart body -/

/-- The output of `Bytes` for a valid message with attachments, in terms of the
parts the specification lists. -/
theorem Bytes_multipart_mimeParts (m : Message) (boundary : String)
    (hF : m.From ≠ "") (hT : m.To ≠ []) (hA : m.Attachments ≠ []) :
    m.Bytes boundary = .ok (headerBlock m ++
      ("Content-Type: multipart/mixed; boundary=" ++ boundary ++ "\r\n") ++ "\r\n" ++
      multipartBody boundary (mimeParts m)) := by
  rw [Bytes_multipart m boundary hF hT hA]
  have hb : ("Content-Type: " ++ m.ContentType ++ "\r\n" ++ "\r\n" ++ m.Body) =
      partText [("Content-Type", m.ContentType)] m.Body := by
    simp [partText, String.join, String.append_assoc]
    rfl
  have ha : (fun att : Attachment => (attHeader att).lines ++ "\r\n" ++ att.Base64) =
      (fun att : Attachment =>
        partText
          [("Content-Disposition", disposition att),
            ("Content-Transfer-Encoding", "base64"),
            ("Content-Type", att.ContentType)]
          att.Base64) := by
    funext att
    rw [attHeader_lines]
    simp [partText, String.join, String.append_assoc]
    rfl
  rw [hb, ha]
  rfl

theorem delimiterLine_clean (boundary : String) (hB : noCRLF boundary.data) :
    ∀ c ∈ delimiterLine boundary, c ≠ '\r' := by
  intro c hc
  simp only [delimiterLine, String.data_append, List.mem_append] at hc
  rcases hc with hc | hc
  · have : c = '-' := by simpa using hc
    rw [this]
    decide
  · exact (hB c hc).1

theorem closingLine_clean (boundary : String) (hB : noCRLF boundary.data) :
    ∀ c ∈ closingLine boundary, c ≠ '\r' := by
  intro c hc
  have hd : closingLine boundary = delimiterLine boundary ++ ['-', '-'] := by
    simp only [closingLine, delimiterLine, String.data_append]
  rw [hd, List.mem_append] at hc
  rcases hc with hc | hc
  · exact delimiterLine_clean boundary hB c hc
  · have : c = '-' := by simpa using hc
    rw [this]
    decide

theorem delimiterLine_ne_closingLine (boundary : String) :
    delimiterLine boundary ≠ closingLine boundary := by
  intro h
  have hl := congrArg List.length h
  have hd : closingLine boundary = delimiterLine boundary ++ ['-', '-'] := by
    simp only [closingLine, delimiterLine, String.data_append]
  rw [hd, List.length_append] at hl
  simp at hl

/-- The lines of a part followed by the rest of the multipart body. -/
theorem splitLines_multipartRest (boundary : String) (hB : noCRLF boundary.data) :
    ∀ (ps : List String) (p : List Char),
      splitLines (p ++ (multipartRest boundary ps).data) = splitLines p ++ restLines boundary ps := by
  intro ps
  induction ps with
  | nil =>
      intro p
      have e : (multipartRest boundary []).data =
          '\r' :: '\n' :: (closingLine boundary ++ '\r' :: '\n' :: []) := by
        simp only [multipartRest, closingLine, String.data_append, List.append_assoc]
        rfl
      rw [e, splitLines_append_crlf, splitLines_append_crlf,
        splitLines_clean _ (closingLine_clean boundary hB)]
      rfl
  | cons q qs ih =>
      intro p
      have e : (multipartRest boundary (q :: qs)).data =
          '\r' :: '\n' :: (delimiterLine boundary ++ '\r' :: '\n' ::
            (q.data ++ (multipartRest boundary qs).data)) := by
        simp only [multipartRest, delimiterLine, String.data_append, List.append_assoc]
        rfl
      rw [e, splitLines_append_crlf, splitLines_append_crlf,
        splitLines_clean _ (delimiterLine_clean boundary hB), ih]
      rfl

theorem countParts_clean_append (delim close : List Char) :
    ∀ (lines : List (List Char)), (∀ l ∈ lines, l ≠ delim ∧ l ≠ close) →
      ∀ rest, countParts delim close (lines ++ rest) = countParts delim close rest := by
  intro lines
  induction lines with
  | nil =>
      intro _ rest
      rfl
  | cons l ls ih =>
      intro h rest
      have hl := h l (List.mem_cons_self l ls)
      have hls := ih (fun x hx => h x (List.mem_cons_of_mem l hx)) rest
      rw [List.cons_append, countParts, if_neg hl.2, hls]
      cases countParts delim close rest <;> simp [hl.1]

/-- Reading the rest of a multipart body whose parts hold no delimiter line finds
one part per further part. -/
theorem countParts_restLines (boundary : String) :
    ∀ (ps : List String),
      (∀ p ∈ ps, ∀ l ∈ splitLines p.data,
        l ≠ delimiterLine boundary ∧ l ≠ closingLine boundary) →
      countParts (delimiterLine boundary) (closingLine boundary) (restLines boundary ps) =
        some ps.length := by
  intro ps
  induction ps with
  | nil =>
      intro _
      simp [restLines, countParts]
  | cons q qs ih =>
      intro h
      have hq := h q (List.mem_cons_self q qs)
      have hqs := ih (fun x hx => h x (List.mem_cons_of_mem q hx))
      rw [restLines, countParts, if_neg (delimiterLine_ne_closingLine boundary),
        countParts_clean_append _ _ _ hq, hqs]
      simp only [if_true, List.length_cons]

/-- Reading a multipart body whose parts hold no delimiter line finds each part. -/
theorem mimePartCount_multipartBody (boundary : String) (hB : noCRLF boundary.data)
    (p : String) (ps : List String)
    (h : ∀ q ∈ p :: ps, ∀ l ∈ splitLines q.data,
      l ≠ delimiterLine boundary ∧ l ≠ closingLine boundary) :
    mimePartCount boundary (multipartBody boundary (p :: ps)) = some (1 + ps.length) := by
  have e : (multipartBody boundary (p :: ps)).data =
      delimiterLine boundary ++ '\r' :: '\n' :: (p.data ++ (multipartRest boundary ps).data) := by
    simp only [multipartBody, delimiterLine, String.data_append, List.append_assoc]
    rfl
  have hp := h p (List.mem_cons_self p ps)
  have hps := countParts_restLines boundary ps (fun x hx => h x (List.mem_cons_of_mem p hx))
  unfold mimePartCount
  rw [e, splitLines_append_crlf, splitLines_clean _ (delimiterLine_clean boundary hB),
    splitLines_multipartRest boundary hB]
  rw [List.singleton_append, countParts, if_neg (delimiterLine_ne_closingLine boundary),
    countParts_clean_append _ _ _ hp, hps]
  simp only [if_true, Nat.add_comm]

/-- C3 (amended): for a valid message with at least one attachment, the output of
`Bytes` is the header block ending in `MIME-Version`, the header
`Content-Type: multipart/mixed; boundary=B`, a blank CRLF line and the multipart
body made of the body part and one part per attachment, which ends with the closing
delimiter line `--B--`; and when the boundary holds no CR and no LF and no line of
the text of a part is the delimiter line `--B` or the closing line `--B--`, a reader
of that body finds `1 + number of attachments` parts. -/
theorem Bytes_with_attachments_multipart (m : Message) (boundary : String)
    (hF : m.From ≠ "") (hT : m.To ≠ []) (hA : m.Attachments ≠ []) :
    m.Bytes boundary = .ok (headerBlock m ++
      ("Content-Type: multipart/mixed; boundary=" ++ boundary ++ "\r\n") ++ "\r\n" ++
      multipartBody boundary (mimeParts m)) ∧
    (mimeParts m).length = 1 + m.Attachments.length ∧
    (∃ front, multipartBody boundary (mimeParts m) =
      front ++ ("\r\n--" ++ boundary ++ "--\r\n")) ∧
    (noCRLF boundary.data →
      (∀ p ∈ mimeParts m, ∀ l ∈ splitLines p.data,
        l ≠ delimiterLine boundary ∧ l ≠ closingLine boundary) →
      mimePartCount boundary (multipartBody boundary (mimeParts m)) =
        some (1 + m.Attachments.length)) := by
  refine ⟨Bytes_multipart_mimeParts m boundary hF hT hA, ?_, ?_, ?_⟩
  · simp [mimeParts, Nat.add_comm]
  · obtain ⟨tail, htail⟩ := multipartRest_closing boundary (mimeParts m).tail
    refine ⟨"--" ++ boundary ++ "\r\n" ++ (mimeParts m).head! ++ tail, ?_⟩
    simp only [mimeParts, multipartBody, List.tail_cons, List.head!_cons] at htail ⊢
    rw [htail]
    simp only [String.append_assoc]
  · intro hB hparts
    have h := mimePartCount_multipartBody boundary hB _ _ hparts
    simpa [mimeParts] using h

set_option maxRecDepth 100000 in
/-- Witness of C3: the message of `TestMessage_Attachments`, whose body a reader
splits into two parts. -/
theorem Bytes_with_attachments_multipart_witness :
    mimePartCount "b0" (multipartBody "b0" (mimeParts testMessageAttachments)) = some (1 + 1) :=
  (Bytes_with_attachments_multipart testMessageAttachments "b0" (by decide) (by decide)
    (by decide)).2.2.2 (by unfold noCRLF; decide) (by decide)

set_option maxRecDepth 100000 in
/-- C3 as stated fails: for a valid message with one attachment whose body text
holds a line equal to the delimiter line of the boundary drawn, a reader of the
multipart body finds three parts, not two. -/
theorem Bytes_part_count_delimiter_in_body :
    delimiterBodyMessage.From ≠ "" ∧ delimiterBodyMessage.To ≠ [] ∧
    delimiterBodyMessage.Attachments.length = 1 ∧
    delimiterBodyMessage.Bytes hexBoundary = .ok (headerBlock delimiterBodyMessage ++
      ("Content-Type: multipart/mixed; boundary=" ++ hexBoundary ++ "\r\n") ++ "\r\n" ++
      multipartBody hexBoundary (mimeParts delimiterBodyMessage)) ∧
    mimePartCount hexBoundary (multipartBody hexBoundary (mimeParts delimiterBodyMessage)) =
      some 3 :=
  ⟨by decide, by decide, rfl,
    Bytes_multipart_mimeParts delimiterBodyMessage hexBoundary (by decide) (by decide)
      (by decide), by decide⟩

/-! ## Slices and `append` -/

theorem read_length (mem : Memory) (s : Slice) : (mem.read s).length = s.len := by
  simp [Memory.read]

theorem read_getElem (mem : Memory) (s : Slice) (i : Nat) (h : i < (mem.read s).length) :
    (mem.read s)[i] = mem.cells s.arr (s.off + i) := by
  simp [Memory.read]

theorem write_cells_in (mem : Memory) (arr pos : Nat) (xs : List String) (i : Nat)
    (h : i < xs.length) : (mem.write arr pos xs).cells arr (pos + i) = xs[i] := by
  have hy : arr = arr ∧ pos ≤ pos + i ∧ pos + i < pos + xs.length := ⟨rfl, by omega, by omega⟩
  have hsub : pos + i - pos = i := by omega
  show (if arr = arr ∧ pos ≤ pos + i ∧ pos + i < pos + xs.length
    then xs.getD (pos + i - pos) "" else mem.cells arr (pos + i)) = xs[i]
  rw [if_pos hy, hsub, List.getD_eq_getElem _ _ h]

theorem write_cells_out (mem : Memory) (arr pos : Nat) (xs : List String) (a j : Nat)
    (h : ¬ (a = arr ∧ pos ≤ j ∧ j < pos + xs.length)) :
    (mem.write arr pos xs).cells a j = mem.cells a j := by
  show (if a = arr ∧ pos ≤ j ∧ j < pos + xs.length
    then xs.getD (j - pos) "" else mem.cells a j) = mem.cells a j
  rw [if_neg h]

theorem append_in_place (mem : Memory) (s : Slice) (xs : List String)
    (h : s.len + xs.length ≤ s.cap) :
    mem.append s xs =
      (mem.write s.arr (s.off + s.len) xs, { s with len := s.len + xs.length }) := by
  unfold Memory.append
  rw [if_pos h]

theorem append_allocates (mem : Memory) (s : Slice) (xs : List String)
    (h : ¬ s.len + xs.length ≤ s.cap) :
    mem.append s xs =
      ({ mem.write mem.next 0 (mem.read s ++ xs) with next := mem.next + 1 },
        { arr := mem.next, off := 0, len := s.len + xs.length,
          cap := max (s.len + xs.length) (mem.grow s.cap (s.len + xs.length)) }) := by
  unfold Memory.append
  rw [if_neg h]

/-- The elements of the slice `append` returns are the elements of its first
argument followed by the appended ones. -/
theorem read_append (mem : Memory) (s : Slice) (xs : List String) :
    (mem.append s xs).1.read (mem.append s xs).2 = mem.read s ++ xs := by
  by_cases h : s.len + xs.length ≤ s.cap
  · rw [append_in_place mem s xs h]
    apply List.ext_getElem
    · simp [read_length]
    · intro i h1 h2
      rw [read_getElem]
      by_cases hi : i < s.len
      · rw [List.getElem_append_left (by rw [read_length]; exact hi), read_getElem]
        show (mem.write s.arr (s.off + s.len) xs).cells s.arr (s.off + i) = _
        apply write_cells_out
        omega
      · have hlen : (mem.read s).length = s.len := read_length mem s
        have h3 : i < s.len + xs.length := by
          rw [List.length_append, hlen] at h2
          exact h2
        rw [List.getElem_append_right (by rw [hlen]; omega)]
        have e : s.off + i = s.off + s.len + (i - s.len) := by omega
        simp only [hlen]
        show (mem.write s.arr (s.off + s.len) xs).cells s.arr (s.off + i) = _
        rw [e, write_cells_in mem s.arr (s.off + s.len) xs (i - s.len) (by omega)]
  · rw [append_allocates mem s xs h]
    apply List.ext_getElem
    · simp [read_length]
    · intro i h1 h2
      rw [read_getElem]
      show (mem.write mem.next 0 (mem.read s ++ xs)).cells mem.next (0 + i) = _
      rw [write_cells_in mem mem.next 0 (mem.read s ++ xs) i h2]

/-- A slice of the runtime that shares no element with the first argument of
`append` keeps its elements. -/
theorem read_append_frame (mem : Memory) (s t : Slice) (xs : List String)
    (ht : mem.allocated t) (hd : s.disjoint t) :
    (mem.append s xs).1.read t = mem.read t := by
  obtain ⟨ht1, ht2⟩ := ht
  apply List.ext_getElem
  · simp [read_length]
  · intro i h1 h2
    have hi : i < t.len := by
      rw [read_length] at h2
      exact h2
    rw [read_getElem, read_getElem]
    by_cases h : s.len + xs.length ≤ s.cap
    · rw [append_in_place mem s xs h]
      show (mem.write s.arr (s.off + s.len) xs).cells t.arr (t.off + i) = _
      apply write_cells_out
      rintro ⟨h1, h2, h3⟩
      rcases hd with hd | hd | hd | hd | hd
      · omega
      · omega
      · exact hd h1.symm
      · omega
      · omega
    · rw [append_allocates mem s xs h]
      show (mem.write mem.next 0 (mem.read s ++ xs)).cells t.arr (t.off + i) = _
      apply write_cells_out
      rintro ⟨h1, -, -⟩
      rcases ht2 with ht2 | ht2
      · omega
      · omega

theorem allocated_append_self (mem : Memory) (s : Slice) (xs : List String)
    (hs : mem.allocated s) : (mem.append s xs).1.allocated (mem.append s xs).2 := by
  obtain ⟨hs1, hs2⟩ := hs
  by_cases h : s.len + xs.length ≤ s.cap
  · rw [append_in_place mem s xs h]
    exact ⟨h, hs2⟩
  · rw [append_allocates mem s xs h]
    exact ⟨Nat.le_max_left _ _, Or.inr (Nat.lt_succ_self _)⟩

theorem allocated_append_other (mem : Memory) (s t : Slice) (xs : List String)
    (ht : mem.allocated t) : (mem.append s xs).1.allocated t := by
  obtain ⟨ht1, ht2⟩ := ht
  by_cases h : s.len + xs.length ≤ s.cap
  · rw [append_in_place mem s xs h]
    exact ⟨ht1, ht2⟩
  · rw [append_allocates mem s xs h]
    exact ⟨ht1, ht2.imp id (fun h => Nat.lt_succ_of_lt h)⟩

theorem disjoint_symm (s t : Slice) (h : s.disjoint t) : t.disjoint s := by
  unfold Slice.disjoint at h ⊢
  rcases h with h | h | h | h | h
  · exact Or.inr (Or.inl h)
  · exact Or.inl h
  · exact Or.inr (Or.inr (Or.inl (fun e => h e.symm)))
  · exact Or.inr (Or.inr (Or.inr (Or.inr h)))
  · exact Or.inr (Or.inr (Or.inr (Or.inl h)))

theorem disjoint_append (mem : Memory) (s t : Slice) (xs : List String)
    (ht : mem.allocated t) (hd : s.disjoint t) : (mem.append s xs).2.disjoint t := by
  obtain ⟨ht1, ht2⟩ := ht
  by_cases h : s.len + xs.length ≤ s.cap
  · rw [append_in_place mem s xs h]
    exact hd
  · rw [append_allocates mem s xs h]
    rcases ht2 with ht2 | ht2
    · exact Or.inr (Or.inl ht2)
    · exact Or.inr (Or.inr (Or.inl (by show mem.next ≠ t.arr; omega)))
/-! ## `Bytes` on the message in memory -/

/-- `Bytes` on the message in memory returns the state it was given and the value
`Message.Bytes` returns for the contents of the message. -/
theorem MsgState_Bytes_eq (st : MsgState) (boundary : String) :
    st.Bytes boundary = (st, st.contents.Bytes boundary) := by
  have hl : (st.mem.read st.msg.To).length = st.msg.To.len := read_length _ _
  have hc : (st.mem.read st.msg.Cc).length = st.msg.Cc.len := read_length _ _
  unfold MsgState.Bytes MsgState.Validate Message.Bytes Message.Validate
  simp only [MsgState.contents, hl, hc]
  by_cases hF : st.msg.From = ""
  · simp only [hF, if_true]
  · by_cases hT : st.msg.To.len = 0
    · simp only [hF, hT, if_true, if_false]
    · simp only [hF, hT, if_false]
      by_cases hA : st.msg.Attachments.length > 0
      · simp only [hA, if_true]
        split
        · rfl
        · split <;> rfl
      · simp only [hA, if_false]

theorem MsgState_Validate_state (st : MsgState) : st.Validate.1 = st := by
  unfold MsgState.Validate
  by_cases hF : st.msg.From = ""
  · simp only [hF, if_true]
  · by_cases hT : st.msg.To.len = 0
    · simp only [hF, hT, if_true, if_false]
    · simp only [hF, hT, if_false]

/-- C12: a call of `Bytes` on a message in memory, successful or failing, returns
the state it was given: the struct and the backing arrays are as they were, so every
field of the message (`From`, `To`, `Cc`, `Bcc`, `Subject`, `Body`, `ContentType`,
`Attachments` with the fields of each attachment) is unchanged; the value returned is
what `Message.Bytes` gives for the contents of the message, and a second call with
the same boundary token returns what the first one returned.  `Validate` changes
nothing either. -/
theorem Bytes_read_only_repeatable (st : MsgState) (boundary : String) :
    (st.Bytes boundary).1 = st ∧
    (st.Bytes boundary).1.contents.From = st.contents.From ∧
    (st.Bytes boundary).1.contents.To = st.contents.To ∧
    (st.Bytes boundary).1.contents.Cc = st.contents.Cc ∧
    (st.Bytes boundary).1.contents.Bcc = st.contents.Bcc ∧
    (st.Bytes boundary).1.contents.Subject = st.contents.Subject ∧
    (st.Bytes boundary).1.contents.Body = st.contents.Body ∧
    (st.Bytes boundary).1.contents.ContentType = st.contents.ContentType ∧
    (st.Bytes boundary).1.contents.Attachments = st.contents.Attachments ∧
    (st.Bytes boundary).2 = st.contents.Bytes boundary ∧
    ((st.Bytes boundary).1.Bytes boundary).2 = (st.Bytes boundary).2 ∧
    st.Validate.1 = st := by
  have h := MsgState_Bytes_eq st boundary
  have h1 : (st.Bytes boundary).1 = st := by rw [h]
  have h2 : (st.Bytes boundary).2 = st.contents.Bytes boundary := by rw [h]
  refine ⟨h1, ?_, ?_, ?_, ?_, ?_, ?_, ?_, ?_, h2, ?_, MsgState_Validate_state st⟩
  all_goals rw [h1]

/-! ## The builders -/

/-- `AddTo` on a message with separate address slices appends to `To`, changes no
other field and keeps the slices separate. -/
theorem AddTo_frame (st : MsgState) (xs : List String) (h : st.Separated) :
    (st.AddTo xs).contents = { st.contents with To := st.contents.To ++ xs } ∧
    (st.AddTo xs).Separated := by
  obtain ⟨hTo, hCc, hBcc, dTC, dTB, dCB⟩ := h
  have e1 := read_append st.mem st.msg.To xs
  have e2 := read_append_frame st.mem st.msg.To st.msg.Cc xs hCc dTC
  have e3 := read_append_frame st.mem st.msg.To st.msg.Bcc xs hBcc dTB
  refine ⟨?_, ?_⟩
  · simp only [MsgState.AddTo, MsgState.contents, e1, e2, e3]
  · exact ⟨allocated_append_self _ _ _ hTo, allocated_append_other _ _ _ _ hCc,
      allocated_append_other _ _ _ _ hBcc, disjoint_append _ _ _ _ hCc dTC,
      disjoint_append _ _ _ _ hBcc dTB, dCB⟩

/-- `AddCc` on a message with separate address slices appends to `Cc`, changes no
other field and keeps the slices separate. -/
theorem AddCc_frame (st : MsgState) (xs : List String) (h : st.Separated) :
    (st.AddCc xs).contents = { st.contents with Cc := st.contents.Cc ++ xs } ∧
    (st.AddCc xs).Separated := by
  obtain ⟨hTo, hCc, hBcc, dTC, dTB, dCB⟩ := h
  have e1 := read_append st.mem st.msg.Cc xs
  have e2 := read_append_frame st.mem st.msg.Cc st.msg.To xs hTo (disjoint_symm _ _ dTC)
  have e3 := read_append_frame st.mem st.msg.Cc st.msg.Bcc xs hBcc dCB
  refine ⟨?_, ?_⟩
  · simp only [MsgState.AddCc, MsgState.contents, e1, e2, e3]
  · exact ⟨allocated_append_other _ _ _ _ hTo, allocated_append_self _ _ _ hCc,
      allocated_append_other _ _ _ _ hBcc,
      disjoint_symm _ _ (disjoint_append _ _ _ _ hTo (disjoint_symm _ _ dTC)), dTB,
      disjoint_append _ _ _ _ hBcc dCB⟩

/-- `AddBcc` on a message with separate address slices appends to `Bcc`, changes no
other field and keeps the slices separate. -/
theorem AddBcc_frame (st : MsgState) (xs : List String) (h : st.Separated) :
    (st.AddBcc xs).contents = { st.contents with Bcc := st.contents.Bcc ++ xs } ∧
    (st.AddBcc xs).Separated := by
  obtain ⟨hTo, hCc, hBcc, dTC, dTB, dCB⟩ := h
  have e1 := read_append st.mem st.msg.Bcc xs
  have e2 := read_append_frame st.mem st.msg.Bcc st.msg.To xs hTo (disjoint_symm _ _ dTB)
  have e3 := read_append_frame st.mem st.msg.Bcc st.msg.Cc xs hCc (disjoint_symm _ _ dCB)
  refine ⟨?_, ?_⟩
  · simp only [MsgState.AddBcc, MsgState.contents, e1, e2, e3]
  · exact ⟨allocated_append_other _ _ _ _ hTo, allocated_append_other _ _ _ _ hCc,
      allocated_append_self _ _ _ hBcc, dTC,
      disjoint_symm _ _ (disjoint_append _ _ _ _ hTo (disjoint_symm _ _ dTB)),
      disjoint_symm _ _ (disjoint_append _ _ _ _ hCc (disjoint_symm _ _ dCB))⟩

/-- C17 (amended): the builders keep insertion order: two calls of `AddTo` leave
`To` equal to the old `To ++ xs ++ ys` with duplicates kept, likewise `AddCc` for
`Cc` and `AddBcc` for `Bcc`; `SetFrom` and `SetSubject` change only `From` and
`Subject`, `SetBody` only `ContentType` and `Body`; a message from `NewMessage` has
content type `text/plain`, every other field empty, and separate address slices.
When the three address slices of the message are separate (slices of the runtime
that share no element of a backing array up to their capacities, as after
`NewMessage`), `AddTo`, `AddCc` and `AddBcc` change no other field and keep the
slices separate, and so do the setters.  (None of these calls has an error
result.) -/
theorem builders_frame (st : MsgState) (xs ys : List String) (s t : String) :
    ((st.AddTo xs).AddTo ys).contents.To = st.contents.To ++ xs ++ ys ∧
    ((st.AddCc xs).AddCc ys).contents.Cc = st.contents.Cc ++ xs ++ ys ∧
    ((st.AddBcc xs).AddBcc ys).contents.Bcc = st.contents.Bcc ++ xs ++ ys ∧
    (st.SetFrom s).contents = { st.contents with From := s } ∧
    (st.SetSubject s).contents = { st.contents with Subject := s } ∧
    (st.SetBody s t).contents = { st.contents with ContentType := s, Body := t } ∧
    (∀ mem : Memory,
      MsgState.contents { mem := mem, msg := NewMessage } =
        { From := "", To := [], Cc := [], Bcc := [], Subject := "", Body := "",
          ContentType := "text/plain", Attachments := [] } ∧
      MsgState.Separated { mem := mem, msg := NewMessage }) ∧
    (st.Separated →
      (st.AddTo xs).contents = { st.contents with To := st.contents.To ++ xs } ∧
      (st.AddCc xs).contents = { st.contents with Cc := st.contents.Cc ++ xs } ∧
      (st.AddBcc xs).contents = { st.contents with Bcc := st.contents.Bcc ++ xs } ∧
      ((st.AddTo xs).AddTo ys).contents =
        { st.contents with To := st.contents.To ++ xs ++ ys } ∧
      ((st.AddCc xs).AddCc ys).contents =
        { st.contents with Cc := st.contents.Cc ++ xs ++ ys } ∧
      ((st.AddBcc xs).AddBcc ys).contents =
        { st.contents with Bcc := st.contents.Bcc ++ xs ++ ys } ∧
      (st.AddTo xs).Separated ∧ (st.AddCc xs).Separated ∧ (st.AddBcc xs).Separated ∧
      (st.SetFrom s).Separated ∧ (st.SetSubject s).Separated ∧
      (st.SetBody s t).Separated) := by
  refine ⟨?_, ?_, ?_, rfl, rfl, rfl, ?_, ?_⟩
  · show (st.AddTo xs).mem.append (st.AddTo xs).msg.To ys |>.1.read
      ((st.AddTo xs).mem.append (st.AddTo xs).msg.To ys).2 = _
    rw [read_append]
    show (st.mem.append st.msg.To xs).1.read (st.mem.append st.msg.To xs).2 ++ ys = _
    rw [read_append]
    rfl
  · show (st.AddCc xs).mem.append (st.AddCc xs).msg.Cc ys |>.1.read
      ((st.AddCc xs).mem.append (st.AddCc xs).msg.Cc ys).2 = _
    rw [read_append]
    show (st.mem.append st.msg.Cc xs).1.read (st.mem.append st.msg.Cc xs).2 ++ ys = _
    rw [read_append]
    rfl
  · show (st.AddBcc xs).mem.append (st.AddBcc xs).msg.Bcc ys |>.1.read
      ((st.AddBcc xs).mem.append (st.AddBcc xs).msg.Bcc ys).2 = _
    rw [read_append]
    show (st.mem.append st.msg.Bcc xs).1.read (st.mem.append st.msg.Bcc xs).2 ++ ys = _
    rw [read_append]
    rfl
  · intro mem
    refine ⟨rfl, ?_⟩
    unfold MsgState.Separated Memory.allocated Slice.disjoint
    simp [NewMessage, Slice.empty]
  · intro h
    obtain ⟨t1, t2⟩ := AddTo_frame st xs h
    obtain ⟨c1, c2⟩ := AddCc_frame st xs h
    obtain ⟨b1, b2⟩ := AddBcc_frame st xs h
    obtain ⟨t3, -⟩ := AddTo_frame (st.AddTo xs) ys t2
    obtain ⟨c3, -⟩ := AddCc_frame (st.AddCc xs) ys c2
    obtain ⟨b3, -⟩ := AddBcc_frame (st.AddBcc xs) ys b2
    refine ⟨t1, c1, b1, ?_, ?_, ?_, t2, c2, b2, h, h, h⟩
    · rw [t3, t1]
    · rw [c3, c1]
    · rw [b3, b1]

set_option maxRecDepth 100000 in
/-- Witness of C17: a message built from `NewMessage` by the builders. -/
theorem builders_frame_witness :
    MsgState.Separated { mem := emptyMemory, msg := NewMessage } ∧
    (MsgState.AddTo (MsgState.AddTo { mem := emptyMemory, msg := NewMessage } ["a@x.com"])
        ["b@x.com", "a@x.com"]).contents =
      { From := "", To := ["a@x.com", "b@x.com", "a@x.com"], Cc := [], Bcc := [],
        Subject := "", Body := "", ContentType := "text/plain", Attachments := [] } :=
  ⟨((builders_frame { mem := emptyMemory, msg := NewMessage } [] [] "" "").2.2.2.2.2.2.1
      emptyMemory).2,
    ((builders_frame { mem := emptyMemory, msg := NewMessage } ["a@x.com"]
      ["b@x.com", "a@x.com"] "" "").2.2.2.2.2.2.2
      ((builders_frame { mem := emptyMemory, msg := NewMessage } [] [] "" "").2.2.2.2.2.2.1
        emptyMemory).2).2.2.2.1⟩

set_option maxRecDepth 100000 in
/-- C17 as stated fails: on a message whose `To` is `base[:1]` and whose `Cc` is
`base[1:2]` for one array `base`, `AddTo` stores the new address in the element of
the array that `Cc` holds, so the call changes `Cc`. -/
theorem AddTo_overwrites_Cc :
    (MsgState.contents { mem := sharedMemory, msg := overlapShared }).To = ["a@x.com"] ∧
    (MsgState.contents { mem := sharedMemory, msg := overlapShared }).Cc = ["b@x.com"] ∧
    (MsgState.AddTo { mem := sharedMemory, msg := overlapShared } ["x@x.com"]).contents.To =
      ["a@x.com", "x@x.com"] ∧
    (MsgState.AddTo { mem := sharedMemory, msg := overlapShared } ["x@x.com"]).contents.Cc =
      ["x@x.com"] := by
  decide

/-! ## The SMTP client -/

/-- The recipient loop issues `Rcpt` for an initial segment of the addresses, in
order, and for all of them when it returns nil. -/
theorem rcptLoop_spec (net : Net) : ∀ (addrs : List String) (log : List Op),
    ∃ k, (rcptLoop net addrs log).1 = log ++ (addrs.take k).map Op.Rcpt ∧
      ((rcptLoop net addrs log).2 = none → addrs.take k = addrs) := by
  intro addrs
  induction addrs with
  | nil =>
      intro log
      exact ⟨0, by simp [rcptLoop], fun _ => rfl⟩
  | cons a rest ih =>
      intro log
      cases hn : net log (Op.Rcpt a) with
      | some err =>
          refine ⟨1, ?_, ?_⟩
          · simp [rcptLoop, issue, hn]
          · simp [rcptLoop, issue, hn]
      | none =>
          obtain ⟨k, h1, h2⟩ := ih (log ++ [Op.Rcpt a])
          refine ⟨k + 1, ?_, ?_⟩
          · simp [rcptLoop, issue, hn, h1]
          · intro h
            simp only [rcptLoop, issue, hn] at h
            simp [h2 h]

theorem Send_standard (c : Client) (net : Net) (bnd : Nat → String) (mem : Memory)
    (messages : List MessageStruct) (h : c.encryption ≠ EncryptionSSL) :
    c.Send net bnd mem messages =
      sendStandardLoop net bnd (c.host ++ ":" ++ toString c.port)
        (PlainAuth "" c.username c.password c.host) 0 messages mem [] := by
  simp [Client.Send, h, Client.sendStandard]

/-- The error of `Validate` on the message in memory is the error of `Validate` on
its contents, whatever the backing arrays hold. -/
theorem MsgState_Validate_contents (st : MsgState) : st.contents.Validate = st.Validate.2 := by
  have hl : (st.mem.read st.msg.To).length = st.msg.To.len := read_length _ _
  unfold MsgState.Validate Message.Validate
  simp only [MsgState.contents, hl]
  by_cases hF : st.msg.From = ""
  · simp only [hF, if_true]
  · by_cases hT : st.msg.To.len = 0
    · simp only [hF, hT, if_true, if_false]
    · simp only [hF, hT, if_false]

theorem MsgState_Validate_memory (mem mem2 : Memory) (msg : MessageStruct) :
    (MsgState.Validate { mem := mem, msg := msg }).2 =
      (MsgState.Validate { mem := mem2, msg := msg }).2 := by
  unfold MsgState.Validate
  by_cases hF : msg.From = ""
  · simp only [hF, if_true]
  · by_cases hT : msg.To.len = 0
    · simp only [hF, hT, if_true, if_false]
    · simp only [hF, hT, if_false]

/-- The recipients computed for a message: the elements of `To`, then those of `Cc`,
then the elements `Bcc` holds after the first `append` call. -/
theorem envelopeRecipients_eq (mem : Memory) (msg : MessageStruct) :
    (envelopeRecipients mem msg).2 =
      mem.read msg.To ++ mem.read msg.Cc ++
        (mem.append msg.To (mem.read msg.Cc)).1.read msg.Bcc := by
  simp only [envelopeRecipients]
  rw [read_append, read_append]

theorem sendStandardLoop_eq_runBatch (net : Net) (bnd : Nat → String) (addr : String)
    (auth : Auth) : ∀ (msgs : List MessageStruct) (i : Nat) (mem : Memory) (log : List Op),
    sendStandardLoop net bnd addr auth i msgs mem log =
      runBatch (standardStep net bnd addr auth) i msgs mem log := by
  intro msgs
  induction msgs with
  | nil =>
      intro i mem log
      rfl
  | cons msg rest ih =>
      intro i mem log
      simp only [sendStandardLoop, runBatch, standardStep, MsgState_Bytes_eq]
      generalize mem.append msg.To (mem.read msg.Cc) = r1
      generalize r1.1.append r1.2 (r1.1.read msg.Bcc) = r2
      cases hb : (MsgState.contents { mem := r2.1, msg := msg }).Bytes (bnd i) with
      | error err => rfl
      | ok out =>
          simp only [issue]
          cases hn : net log (Op.SendMail addr auth msg.From (r2.1.read r2.2) out) with
          | some err => rfl
          | none => exact ih _ _ _

theorem sendSSLLoop_eq_runBatch (net : Net) (bnd : Nat → String) :
    ∀ (msgs : List MessageStruct) (i : Nat) (mem : Memory) (log : List Op),
    sendSSLLoop net bnd i msgs mem log = runBatch (sslStep net bnd) i msgs mem log := by
  intro msgs
  induction msgs with
  | nil =>
      intro i mem log
      rfl
  | cons msg rest ih =>
      intro i mem log
      simp only [sendSSLLoop, runBatch, sslStep, issue, MsgState_Bytes_eq]
      generalize mem.append msg.To (mem.read msg.Cc) = r1
      generalize r1.1.append r1.2 (r1.1.read msg.Bcc) = r2
      cases hm : net log (Op.Mail msg.From) with
      | some err => rfl
      | none =>
          simp only []
          rcases hr : rcptLoop net (r2.1.read r2.2) (log ++ [Op.Mail msg.From])
            with ⟨log2, e2⟩
          cases e2 with
          | some err => rfl
          | none =>
              simp only []
              cases hd : net log2 Op.Data with
              | some err => rfl
              | none =>
                  simp only []
                  cases hb : (MsgState.contents { mem := r2.1, msg := msg }).Bytes (bnd i) with
                  | error err => rfl
                  | ok out =>
                      simp only []
                      cases hw : net (log2 ++ [Op.Data]) (Op.Write out) with
                      | some err => rfl
                      | none =>
                          simp only []
                          cases hc : net (log2 ++ [Op.Data] ++ [Op.Write out]) Op.CloseData with
                          | some err => rfl
                          | none => exact ih _ _ _

/-- A batch that ends with an error is not continued: appended messages change
nothing. -/
theorem runBatch_append_error
    (step : Nat → MessageStruct → Memory → List Op → Memory × List Op × Option Error) :
    ∀ (msgs : List MessageStruct) (i : Nat) (mem : Memory) (log : List Op)
      (rest : List MessageStruct) (err : Error),
    (runBatch step i msgs mem log).2.2 = some err →
    runBatch step i (msgs ++ rest) mem log = runBatch step i msgs mem log := by
  intro msgs
  induction msgs with
  | nil =>
      intro i mem log rest err h
      cases h
  | cons msg tail ih =>
      intro i mem log rest err h
      rcases hs : step i msg mem log with ⟨mem1, log1, e⟩
      cases e with
      | some e1 => simp only [List.cons_append, runBatch, hs]
      | none =>
          simp only [runBatch, hs] at h
          simp only [List.cons_append, runBatch, hs]
          exact ih _ _ _ rest err h

/-- A batch that ends without error is continued by the appended messages from the
memory and the log it reached. -/
theorem runBatch_append_ok
    (step : Nat → MessageStruct → Memory → List Op → Memory × List Op × Option Error) :
    ∀ (msgs : List MessageStruct) (i : Nat) (mem : Memory) (log : List Op)
      (rest : List MessageStruct),
    (runBatch step i msgs mem log).2.2 = none →
    runBatch step i (msgs ++ rest) mem log =
      runBatch step (i + msgs.length) rest (runBatch step i msgs mem log).1
        (runBatch step i msgs mem log).2.1 := by
  intro msgs
  induction msgs with
  | nil =>
      intro i mem log rest _
      rfl
  | cons msg tail ih =>
      intro i mem log rest h
      rcases hs : step i msg mem log with ⟨mem1, log1, e⟩
      cases e with
      | some e1 =>
          simp only [runBatch, hs] at h
          cases h
      | none =>
          simp only [runBatch, hs] at h
          simp only [List.cons_append, runBatch, hs, List.length_cons]
          have h2 := ih (i + 1) mem1 log1 rest h
          have e : i + (tail.length + 1) = i + 1 + tail.length := by omega
          rw [e]
          exact h2

theorem runBatch_singleton
    (step : Nat → MessageStruct → Memory → List Op → Memory × List Op × Option Error)
    (i : Nat) (msg : MessageStruct) (mem : Memory) (log : List Op) :
    runBatch step i [msg] mem log = step i msg mem log := by
  rcases hs : step i msg mem log with ⟨mem1, log1, e⟩
  cases e <;> simp only [runBatch, hs]

theorem Bytes_ok_valid (m : Message) (boundary out : String)
    (h : m.Bytes boundary = .ok out) : m.From ≠ "" ∧ m.To ≠ [] := by
  cases hv : m.Validate with
  | none => exact (Validate_eq_none_iff m).mp hv
  | some e =>
      rw [Bytes_invalid m boundary e hv] at h
      cases h

/-- A step that returns nil serialized the message and performed its complete
transmission to the recipients computed for it. -/
theorem step_ok (c : Client) (net : Net) (bnd : Nat → String) (i : Nat) (msg : MessageStruct)
    (mem : Memory) (log : List Op) (h : (c.step net bnd i msg mem log).2.2 = none) :
    ∃ out, (MsgState.contents { mem := (envelopeRecipients mem msg).1, msg := msg }).Bytes
        (bnd i) = .ok out ∧
      (c.step net bnd i msg mem log).1 = (envelopeRecipients mem msg).1 ∧
      (c.step net bnd i msg mem log).2.1 =
        log ++ c.transmissionOps msg.From (envelopeRecipients mem msg).2 out := by
  by_cases hc : c.encryption = EncryptionSSL
  · simp only [Client.step, hc, if_true] at h ⊢
    simp only [Client.transmissionOps, hc, if_true, envelopeRecipients]
    simp only [sslStep, issue, MsgState_Bytes_eq] at h ⊢
    generalize mem.append msg.To (mem.read msg.Cc) = r1 at h ⊢
    generalize r1.1.append r1.2 (r1.1.read msg.Bcc) = r2 at h ⊢
    obtain ⟨k, hk1, hk2⟩ := rcptLoop_spec net (r2.1.read r2.2) (log ++ [Op.Mail msg.From])
    rcases hr : rcptLoop net (r2.1.read r2.2) (log ++ [Op.Mail msg.From]) with ⟨log2, e2⟩
    rw [hr] at hk1 hk2
    simp only at hk1 hk2
    subst hk1
    cases hm : net log (Op.Mail msg.From) with
    | some err =>
        simp only [hm] at h
        cases h
    | none =>
        cases e2 with
        | some err =>
            simp only [hm, hr] at h
            cases h
        | none =>
            rw [hk2 rfl] at hr
            cases hd : net (log ++ [Op.Mail msg.From] ++ List.map Op.Rcpt (r2.1.read r2.2))
                Op.Data with
            | some err =>
                simp only [hm, hr, hd] at h
                cases h
            | none =>
                cases hb : (MsgState.contents { mem := r2.1, msg := msg }).Bytes (bnd i) with
                | error err =>
                    simp only [hm, hr, hd, hb] at h
                    cases h
                | ok out =>
                    cases hw : net (log ++ [Op.Mail msg.From] ++
                        List.map Op.Rcpt (r2.1.read r2.2) ++ [Op.Data]) (Op.Write out) with
                    | some err =>
                        simp only [hm, hr, hd, hb, hw] at h
                        cases h
                    | none =>
                        refine ⟨out, rfl, ?_, ?_⟩
                        · simp only [hm, hr, hd, hw]
                        · simp only [hm, hr, hd, hw]
                          simp only [List.append_assoc, List.singleton_append,
                            List.cons_append, List.nil_append]
  · simp only [Client.step, hc, if_false] at h ⊢
    simp only [Client.transmissionOps, hc, if_false, envelopeRecipients]
    simp only [standardStep, issue, MsgState_Bytes_eq] at h ⊢
    generalize mem.append msg.To (mem.read msg.Cc) = r1 at h ⊢
    generalize r1.1.append r1.2 (r1.1.read msg.Bcc) = r2 at h ⊢
    cases hb : (MsgState.contents { mem := r2.1, msg := msg }).Bytes (bnd i) with
    | error err =>
        simp only [hb] at h
        cases h
    | ok out => exact ⟨out, rfl, rfl, rfl⟩

/-- A batch that ends without error serialized every message and performed the
complete transmission of each, in order. -/
theorem runBatch_ok (c : Client) (net : Net) (bnd : Nat → String) :
    ∀ (msgs : List MessageStruct) (i : Nat) (mem : Memory) (log : List Op),
    (runBatch (c.step net bnd) i msgs mem log).2.2 = none →
    (∀ m ∈ msgs, m.From ≠ "" ∧ m.To.len ≠ 0) ∧
      (runBatch (c.step net bnd) i msgs mem log).1 = batchMemory msgs mem ∧
      (runBatch (c.step net bnd) i msgs mem log).2.1 = log ++ c.batchOps bnd i msgs mem := by
  intro msgs
  induction msgs with
  | nil =>
      intro i mem log _
      exact ⟨fun m hm => absurd hm (List.not_mem_nil m), rfl,
        by simp [runBatch, Client.batchOps]⟩
  | cons msg tail ih =>
      intro i mem log h
      rcases hs : c.step net bnd i msg mem log with ⟨mem1, log1, e⟩
      cases e with
      | some e1 =>
          simp only [runBatch, hs] at h
          cases h
      | none =>
          obtain ⟨out, hb, hmem, hlog⟩ := step_ok c net bnd i msg mem log (by rw [hs])
          rw [hs] at hlog hmem
          simp only at hlog hmem
          simp only [runBatch, hs] at h ⊢
          obtain ⟨hv, hm, hl⟩ := ih (i + 1) mem1 log1 h
          refine ⟨?_, ?_, ?_⟩
          · intro m hmm
            rcases List.mem_cons.mp hmm with rfl | hmm
            · obtain ⟨hF, hT⟩ := Bytes_ok_valid _ _ _ hb
              refine ⟨hF, ?_⟩
              intro hlen
              apply hT
              apply List.eq_nil_of_length_eq_zero
              show (Memory.read _ m.To).length = 0
              rw [read_length]
              exact hlen
            · exact hv m hmm
          · rw [hm, hmem]
            rfl
          · rw [hl, hlog, hmem]
            simp only [Client.batchOps, hb, List.append_assoc]

/-- The shape of `Send`: either the session is opened and `Send` is the batch rule
run from the opening operations, followed by the closing operations; or opening the
session fails and `Send` returns that error whatever the batch is. -/
theorem Send_shape (c : Client) (net : Net) (bnd : Nat → String) :
    (∀ mem msgs, c.Send net bnd mem msgs =
      ((runBatch (c.step net bnd) 0 msgs mem c.connectOps).1,
        (runBatch (c.step net bnd) 0 msgs mem c.connectOps).2.1 ++ c.closeOps,
        (runBatch (c.step net bnd) 0 msgs mem c.connectOps).2.2)) ∨
    (∃ log err, ∀ mem msgs, c.Send net bnd mem msgs = (mem, log, some err)) := by
  by_cases hc : c.encryption = EncryptionSSL
  · have hstep : c.step net bnd = sslStep net bnd := by
      funext i msg mem log
      simp only [Client.step, hc, if_true]
    cases hd : net [] (Op.Dial (c.host ++ ":" ++ toString c.port) c.host false) with
    | some err =>
        refine Or.inr ⟨[Op.Dial (c.host ++ ":" ++ toString c.port) c.host false], err,
          fun mem msgs => ?_⟩
        simp only [Client.Send, hc, if_true, Client.sendSSL, issue, List.nil_append, hd]
    | none =>
        cases hn : net [Op.Dial (c.host ++ ":" ++ toString c.port) c.host false]
            (Op.NewClient c.host) with
        | some err =>
            refine Or.inr ⟨[Op.Dial (c.host ++ ":" ++ toString c.port) c.host false] ++
              [Op.NewClient c.host] ++ [Op.ConnClose], err, fun mem msgs => ?_⟩
            simp only [Client.Send, hc, if_true, Client.sendSSL, issue, List.nil_append, hd, hn]
        | none =>
            cases ha : net ([Op.Dial (c.host ++ ":" ++ toString c.port) c.host false] ++
                [Op.NewClient c.host]) (Op.Auth (PlainAuth "" c.username c.password c.host)) with
            | some err =>
                refine Or.inr ⟨[Op.Dial (c.host ++ ":" ++ toString c.port) c.host false] ++
                  [Op.NewClient c.host] ++ [Op.Auth (PlainAuth "" c.username c.password c.host)]
                  ++ [Op.Quit] ++ [Op.ConnClose], err, fun mem msgs => ?_⟩
                simp only [Client.Send, hc, if_true, Client.sendSSL, issue, List.nil_append,
                  hd, hn, ha]
            | none =>
                refine Or.inl (fun mem msgs => ?_)
                simp only [Client.Send, hc, if_true, Client.sendSSL, issue, List.nil_append,
                  hd, hn, ha, sendSSLLoop_eq_runBatch, hstep, Client.connectOps,
                  Client.closeOps]
                simp only [List.append_assoc, List.singleton_append]
                rfl
  · refine Or.inl (fun mem msgs => ?_)
    have hstep : c.step net bnd = standardStep net bnd (c.host ++ ":" ++ toString c.port)
        (PlainAuth "" c.username c.password c.host) := by
      funext i msg mem log
      simp only [Client.step, hc, if_false]
    rw [Send_standard _ _ _ _ _ hc, sendStandardLoop_eq_runBatch, hstep]
    simp only [Client.connectOps, Client.closeOps, hc, if_false, List.append_nil]

/-! ## The claims on `Client.Send` -/

set_option maxRecDepth 100000 in
/-- C8 (the code does not do this): in the mode `EncryptionTLS` the client runs the
very same `sendStandard` path as in the mode `EncryptionNone`, whatever the network
answers: nothing mandates STARTTLS.  On a transport that accepts the one-shot
`smtp.SendMail` (which upgrades only when the server offers it), `Send` in TLS mode
performs that single call and returns nil. -/
theorem Send_TLS_same_as_None :
    (∀ (host : String) (port : Int) (username password : String) (net : Net)
        (bnd : Nat → String) (mem : Memory) (messages : List MessageStruct),
      (NewClient host port username password EncryptionTLS).Send net bnd mem messages =
        (NewClient host port username password EncryptionNone).Send net bnd mem messages) ∧
    ((NewClient "localhost" 587 "user" "secret" EncryptionTLS).Send acceptAll (fun _ => "b0")
        testMemory [testStruct]).2 =
      ([Op.SendMail "localhost:587" (PlainAuth "" "user" "secret" "localhost")
          "sender@example.com" ["recipient@example.com"]
          "From: sender@example.com\r\nTo: recipient@example.com\r\nSubject: Test Subject\r\nMIME-Version: 1.0\r\nContent-Type: text/plain\r\n\r\nHello World"],
        none) := by
  refine ⟨?_, rfl⟩
  intro host port username password net bnd mem messages
  have hT : EncryptionTLS ≠ EncryptionSSL := by decide
  have hN : EncryptionNone ≠ EncryptionSSL := by decide
  rw [Send_standard (NewClient host port username password EncryptionTLS) _ _ _ _ hT,
    Send_standard (NewClient host port username password EncryptionNone) _ _ _ _ hN]
  rfl

set_option maxRecDepth 100000 in
/-- C9 (the code does not do this on the SSL path): with `EncryptionSSL`, for a
message whose `From` is empty, `Send` issues `MAIL FROM`, `RCPT TO` and `DATA` before
it calls `Bytes`, then closes the data writer and returns the validation error;
on the `sendStandard` path (any other mode) a message that fails `Validate` aborts
the batch before any operation. -/
theorem sendSSL_submits_before_Bytes :
    ((NewClient "smtp.example.com" 465 "user" "secret" EncryptionSSL).Send acceptAll
        (fun _ => "b0") testMemory [noFromStruct]).2 =
      ([Op.Dial "smtp.example.com:465" "smtp.example.com" false,
          Op.NewClient "smtp.example.com",
          Op.Auth (PlainAuth "" "user" "secret" "smtp.example.com"),
          Op.Mail "", Op.Rcpt "recipient@example.com", Op.Data, Op.CloseData,
          Op.Quit, Op.ConnClose],
        some "from address is required") ∧
    (∀ (c : Client) (net : Net) (bnd : Nat → String) (mem : Memory) (msg : MessageStruct)
        (rest : List MessageStruct) (err : Error), c.encryption ≠ EncryptionSSL →
      (MsgState.Validate { mem := mem, msg := msg }).2 = some err →
      (c.Send net bnd mem (msg :: rest)).2 = ([], some err)) := by
  refine ⟨rfl, ?_⟩
  intro c net bnd mem msg rest err hc hv
  rw [Send_standard _ _ _ _ _ hc]
  simp only [sendStandardLoop, MsgState_Bytes_eq]
  generalize mem.append msg.To (mem.read msg.Cc) = r1
  generalize r1.1.append r1.2 (r1.1.read msg.Bcc) = r2
  have hv2 : (MsgState.contents { mem := r2.1, msg := msg }).Validate = some err := by
    rw [MsgState_Validate_contents, MsgState_Validate_memory r2.1 mem, hv]
  rw [Bytes_invalid _ _ err hv2]

set_option maxRecDepth 100000 in
/-- C10 (the code does not do this when slices share a backing array): `Send` builds
the recipient list with `append(msg.To, msg.Cc...)`, which stores the Cc addresses
in the backing array of `To` when its capacity allows it.  With the array `base`
holding `a@x.com, b@x.com`, a first message with `To` equal to `base[:1]` and the Cc
address `c@x.com`, and a second message with `To` equal to `base`, both paths of
`Send` submit the recipients `a@x.com, c@x.com` for the second message, not its
list `a@x.com, b@x.com`.  For a single message with `To` equal to `base[:1]`, the Cc
address `c@x.com` and `Bcc` equal to `base[1:2]`, the recipients submitted are
`a@x.com, c@x.com, c@x.com`, not `To ++ Cc ++ Bcc`.  In general the recipients are
the elements of `To`, those of `Cc`, and the elements `Bcc` holds after the first
`append`. -/
theorem Send_envelope_aliased :
    (MsgState.contents { mem := sharedMemory, msg := firstShared }).To = ["a@x.com"] ∧
    (MsgState.contents { mem := sharedMemory, msg := firstShared }).Cc = ["c@x.com"] ∧
    (MsgState.contents { mem := sharedMemory, msg := firstShared }).Bcc = [] ∧
    (MsgState.contents { mem := sharedMemory, msg := secondShared }).To =
      ["a@x.com", "b@x.com"] ∧
    (MsgState.contents { mem := sharedMemory, msg := secondShared }).Cc = [] ∧
    (MsgState.contents { mem := sharedMemory, msg := secondShared }).Bcc = [] ∧
    ((NewClient "localhost" 25 "user" "secret" EncryptionNone).Send acceptAll (fun _ => "b0")
        sharedMemory [firstShared, secondShared]).2 =
      ([Op.SendMail "localhost:25" (PlainAuth "" "user" "secret" "localhost") "s@x.com"
          ["a@x.com", "c@x.com"]
          "From: s@x.com\r\nTo: a@x.com\r\nCc: c@x.com\r\nSubject: One\r\nMIME-Version: 1.0\r\nContent-Type: text/plain\r\n\r\nHello",
        Op.SendMail "localhost:25" (PlainAuth "" "user" "secret" "localhost") "s@x.com"
          ["a@x.com", "c@x.com"]
          "From: s@x.com\r\nTo: a@x.com, c@x.com\r\nSubject: Two\r\nMIME-Version: 1.0\r\nContent-Type: text/plain\r\n\r\nHello"],
        none) ∧
    ((NewClient "smtp.example.com" 465 "user" "secret" EncryptionSSL).Send acceptAll
        (fun _ => "b0") sharedMemory [firstShared, secondShared]).2 =
      ([Op.Dial "smtp.example.com:465" "smtp.example.com" false,
          Op.NewClient "smtp.example.com",
          Op.Auth (PlainAuth "" "user" "secret" "smtp.example.com"),
          Op.Mail "s@x.com", Op.Rcpt "a@x.com", Op.Rcpt "c@x.com", Op.Data,
          Op.Write "From: s@x.com\r\nTo: a@x.com\r\nCc: c@x.com\r\nSubject: One\r\nMIME-Version: 1.0\r\nContent-Type: text/plain\r\n\r\nHello",
          Op.CloseData,
          Op.Mail "s@x.com", Op.Rcpt "a@x.com", Op.Rcpt "c@x.com", Op.Data,
          Op.Write "From: s@x.com\r\nTo: a@x.com, c@x.com\r\nSubject: Two\r\nMIME-Version: 1.0\r\nContent-Type: text/plain\r\n\r\nHello",
          Op.CloseData, Op.Quit, Op.ConnClose],
        none) ∧
    (MsgState.contents { mem := sharedMemory, msg := selfShared }).To = ["a@x.com"] ∧
    (MsgState.contents { mem := sharedMemory, msg := selfShared }).Cc = ["c@x.com"] ∧
    (MsgState.contents { mem := sharedMemory, msg := selfShared }).Bcc = ["b@x.com"] ∧
    ((NewClient "localhost" 25 "user" "secret" EncryptionNone).Send acceptAll (fun _ => "b0")
        sharedMemory [selfShared]).2 =
      ([Op.SendMail "localhost:25" (PlainAuth "" "user" "secret" "localhost") "s@x.com"
          ["a@x.com", "c@x.com", "c@x.com"]
          "From: s@x.com\r\nTo: a@x.com\r\nCc: c@x.com\r\nSubject: One\r\nMIME-Version: 1.0\r\nContent-Type: text/plain\r\n\r\nHello"],
        none) ∧
    (∀ (mem : Memory) (msg : MessageStruct),
      (envelopeRecipients mem msg).2 =
        mem.read msg.To ++ mem.read msg.Cc ++
          (mem.append msg.To (mem.read msg.Cc)).1.read msg.Bcc) :=
  ⟨by decide, by decide, by decide, by decide, by decide, by decide, rfl, rfl,
    by decide, by decide, by decide, rfl, envelopeRecipients_eq⟩

/-- C11: the messages of a batch are processed in order and `Send` returns the
first error.  When `Send` on the messages before `msg` returns nil, they were all
serialized and completely transmitted, each to the recipients computed for it, and
`Send` on the batch extended by `msg` is the processing of `msg` from the memory and
the log so reached, its error included; a batch that ends with an error is not
continued (messages after it change neither the memory, nor the log, nor the
error); and `Send` returns nil only when every message was serialized and
completely transmitted, in order. -/
theorem Send_stops_at_first_error (c : Client) (net : Net) (bnd : Nat → String) :
    (∀ (mem : Memory) (pre : List MessageStruct) (msg : MessageStruct),
      (c.Send net bnd mem pre).2.2 = none →
      (∀ m ∈ pre, m.From ≠ "" ∧ m.To.len ≠ 0) ∧
      (c.Send net bnd mem pre).1 = batchMemory pre mem ∧
      c.Send net bnd mem (pre ++ [msg]) =
        ((c.step net bnd pre.length msg (batchMemory pre mem)
            (c.connectOps ++ c.batchOps bnd 0 pre mem)).1,
          (c.step net bnd pre.length msg (batchMemory pre mem)
            (c.connectOps ++ c.batchOps bnd 0 pre mem)).2.1 ++ c.closeOps,
          (c.step net bnd pre.length msg (batchMemory pre mem)
            (c.connectOps ++ c.batchOps bnd 0 pre mem)).2.2)) ∧
    (∀ (mem : Memory) (msgs rest : List MessageStruct) (err : Error),
      (c.Send net bnd mem msgs).2.2 = some err →
      c.Send net bnd mem (msgs ++ rest) = c.Send net bnd mem msgs) ∧
    (∀ (mem : Memory) (msgs : List MessageStruct), (c.Send net bnd mem msgs).2.2 = none →
      (∀ m ∈ msgs, m.From ≠ "" ∧ m.To.len ≠ 0) ∧
      (c.Send net bnd mem msgs).2.1 =
        c.connectOps ++ c.batchOps bnd 0 msgs mem ++ c.closeOps) := by
  rcases Send_shape c net bnd with hs | ⟨log, e, hs⟩
  · refine ⟨?_, ?_, ?_⟩
    · intro mem pre msg h
      rw [hs mem pre] at h
      simp only at h
      obtain ⟨hv, hm, hl⟩ := runBatch_ok c net bnd pre 0 mem c.connectOps h
      refine ⟨hv, ?_, ?_⟩
      · rw [hs mem pre]
        exact hm
      · rw [hs mem (pre ++ [msg]), runBatch_append_ok _ _ _ _ _ _ h, runBatch_singleton, hl,
          hm, Nat.zero_add]
    · intro mem msgs rest err h
      rw [hs mem msgs] at h
      simp only at h
      rw [hs mem (msgs ++ rest), hs mem msgs, runBatch_append_error _ _ _ _ _ rest err h]
    · intro mem msgs h
      rw [hs mem msgs] at h
      simp only at h
      obtain ⟨hv, -, hl⟩ := runBatch_ok c net bnd msgs 0 mem c.connectOps h
      refine ⟨hv, ?_⟩
      rw [hs mem msgs, hl]
  · refine ⟨?_, ?_, ?_⟩
    · intro mem pre msg h
      rw [hs mem pre] at h
      cases h
    · intro mem msgs rest err _
      rw [hs mem (msgs ++ rest), hs mem msgs]
    · intro mem msgs h
      rw [hs mem msgs] at h
      cases h

end GoMail
